import Mathlib

/-!
# TOFU-Learn searcher: a verification development of `main.go`

The Go program fetches the sets of a flashcard deck page by page, keeps them
in a cache file and searches the words of the cards for a term.

Conventions of the embedding.

* A Go `string` and a Go `[]byte` are sequences of bytes: `List Nat`, one
  element per byte.
* A Go slice is a list; `nil` and the empty slice are both `[]`.
* A Go `int` is an `Int` within the 64-bit range.  `set.Index + 1`, on a
  stored value, wraps around as Go's addition does (`wrapInt`).  A card
  position and the page counter stay below the length of a slice, so `+ 1`
  on them does not wrap.
* Library calls whose behaviour lies outside the repository (the HTTP
  request, decoding a page of the remote service, the Unicode case tables)
  are fields of `Env`; theorems hold for every `Env`.
* The cache file is written by `json.Marshal` and read by `json.Unmarshal`.
  Both are modelled for the type `[]Set`, in the compact form the library
  writes, with its escaping of strings and its replacement of bytes that
  are not valid UTF-8.
* The file system is an explicit state: the entries under the working
  directory, by relative path; a path is resolved through its directories.
* The unbounded loop of `loadAllSetsFromApi` takes a fuel argument and
  returns `none` when the fuel is used up.
-/

namespace TofuLearn

/-! ## Data model (`main.go`, lines 14 to 25 and 58 to 63) -/

/-- A Go string: its bytes. -/
abbrev GoString := List Nat

/-- The bytes of an ASCII text. -/
def ascii (s : String) : GoString := s.toList.map Char.toNat

/-- Go struct `Card`. -/
structure Card where
  Word : GoString
  Translation : GoString
deriving DecidableEq, Repr

/-- Go struct `Set`. -/
structure Set where
  Name : GoString
  Cards : List Card
  Index : Int
deriving DecidableEq, Repr

/-- Go struct `Match`. -/
structure Match where
  SetIndex : Int
  WordIndex : Int
  Word : GoString
  Translation : GoString
deriving DecidableEq, Repr

/-! ## `strings.ToLower` and `strings.Contains` -/

/-- Lower-casing of one ASCII byte: `'A'..'Z'` move to `'a'..'z'`. -/
def lowerByte (c : Nat) : Nat :=
  if 65 ≤ c ∧ c ≤ 90 then c + 32 else c

/-- Go `strings.ToLower`.  A string of ASCII bytes is returned unchanged when
it has no upper-case letter and is lower-cased byte by byte otherwise; any
other string goes through `strings.Map(unicode.ToLower, s)`, which is the
argument `mapLower`. -/
def ToLower (mapLower : GoString → GoString) (s : GoString) : GoString :=
  let isASCII := s.all (fun c => c < 128)
  let hasUpper := s.any (fun c => 65 ≤ c ∧ c ≤ 90)
  if isASCII then
    if !hasUpper then s else s.map lowerByte
  else mapLower s

/-- Go `strings.Contains`: `substr` occurs in `s` at some byte offset. -/
def Contains : GoString → GoString → Bool
  | [], substr => substr.isEmpty
  | c :: s, substr => substr.isPrefixOf (c :: s) || Contains s substr

/-! ## `findMatches` (`main.go`, lines 65 to 80) -/

/-- The largest Go `int` (64 bits). -/
def maxInt : Int := 9223372036854775807

/-- The smallest Go `int` (64 bits). -/
def minInt : Int := -9223372036854775808

/-- The Go `int` that an integer result is stored as: the value modulo
`2^64` in the range from `minInt` to `maxInt`. -/
def wrapInt (x : Int) : Int :=
  (x + 9223372036854775808) % 18446744073709551616 - 9223372036854775808

/-- The `for i, card := range set.Cards` loop of `findMatches`: `i` is the
position of the first card of `cards`, `found` the slice `matches` built so
far.  `set.Index + 1` is an addition of Go `int`s; `i + 1` is at most the
length of the slice. -/
def findMatchesLoop (mapLower : GoString → GoString) (set : Set) (wordLower : GoString) :
    Nat → List Card → List Match → List Match
  | _, [], found => found
  | i, card :: cards, found =>
    if Contains (ToLower mapLower card.Word) wordLower then
      findMatchesLoop mapLower set wordLower (i + 1) cards
        (found ++ [{ SetIndex := wrapInt (set.Index + 1),
                     WordIndex := (i : Int) + 1,
                     Word := card.Word,
                     Translation := card.Translation }])
    else
      findMatchesLoop mapLower set wordLower (i + 1) cards found

/-- Go `findMatches`. -/
def findMatches (mapLower : GoString → GoString) (set : Set) (word : GoString) : List Match :=
  let wordLower := ToLower mapLower word
  findMatchesLoop mapLower set wordLower 0 set.Cards []

/-- The search loop that ends `main` (lines 154 to 162): the slices of
matches it prints, one for each set that has a match, in set order. -/
def searchLoop (mapLower : GoString → GoString) (wordToSearch : GoString) :
    List Set → List (List Match)
  | [] => []
  | set :: sets =>
    let found := findMatches mapLower set wordToSearch
    if found.length > 0 then found :: searchLoop mapLower wordToSearch sets
    else searchLoop mapLower wordToSearch sets

/-! ## UTF-8 (`unicode/utf8`), as `encoding/json` uses it -/

/-- Go `utf8.RuneError`, the replacement character U+FFFD. -/
def RuneError : Nat := 0xFFFD

/-- Lowest second byte that may follow the first byte `b0` of an encoding. -/
def acceptLo (b0 : Nat) : Nat :=
  if b0 = 0xE0 then 0xA0 else if b0 = 0xF0 then 0x90 else 0x80

/-- Highest second byte that may follow the first byte `b0` of an encoding. -/
def acceptHi (b0 : Nat) : Nat :=
  if b0 = 0xED then 0x9F else if b0 = 0xF4 then 0x8F else 0xBF

/-- Go `utf8.DecodeRune`: the first rune of `p` and the number of bytes of its
encoding; `(RuneError, 1)` when `p` does not start with a valid encoding and
`(RuneError, 0)` when `p` is empty. -/
def decodeRune : List Nat → Nat × Nat
  | [] => (RuneError, 0)
  | b0 :: rest =>
    if b0 < 0x80 then (b0, 1)
    else if b0 < 0xC2 then (RuneError, 1)
    else if b0 < 0xE0 then
      match rest with
      | b1 :: _ =>
        if 0x80 ≤ b1 ∧ b1 ≤ 0xBF then ((b0 - 0xC0) * 64 + (b1 - 0x80), 2)
        else (RuneError, 1)
      | _ => (RuneError, 1)
    else if b0 < 0xF0 then
      match rest with
      | b1 :: b2 :: _ =>
        if acceptLo b0 ≤ b1 ∧ b1 ≤ acceptHi b0 ∧ 0x80 ≤ b2 ∧ b2 ≤ 0xBF then
          ((b0 - 0xE0) * 4096 + (b1 - 0x80) * 64 + (b2 - 0x80), 3)
        else (RuneError, 1)
      | _ => (RuneError, 1)
    else if b0 < 0xF5 then
      match rest with
      | b1 :: b2 :: b3 :: _ =>
        if acceptLo b0 ≤ b1 ∧ b1 ≤ acceptHi b0 ∧ 0x80 ≤ b2 ∧ b2 ≤ 0xBF ∧ 0x80 ≤ b3 ∧ b3 ≤ 0xBF then
          ((b0 - 0xF0) * 262144 + (b1 - 0x80) * 4096 + (b2 - 0x80) * 64 + (b3 - 0x80), 4)
        else (RuneError, 1)
      | _ => (RuneError, 1)
    else (RuneError, 1)

/-- Go `utf8.EncodeRune`: the UTF-8 encoding of `r`; a surrogate or a value
above U+10FFFF is encoded as U+FFFD. -/
def encodeRune (r : Nat) : List Nat :=
  if r ≤ 0x7F then [r]
  else if r ≤ 0x7FF then [0xC0 + r / 64, 0x80 + r % 64]
  else if r > 0x10FFFF ∨ (0xD800 ≤ r ∧ r ≤ 0xDFFF) then [0xEF, 0xBF, 0xBD]
  else if r ≤ 0xFFFF then [0xE0 + r / 4096, 0x80 + r / 64 % 64, 0x80 + r % 64]
  else [0xF0 + r / 262144, 0x80 + r / 4096 % 64, 0x80 + r / 64 % 64, 0x80 + r % 64]

/-- The loop of Go `utf8.Valid`; `fuel` bounds the number of runes. -/
def validLoop : Nat → List Nat → Bool
  | _, [] => true
  | 0, _ :: _ => false
  | fuel + 1, b :: rest =>
    let (r, size) := decodeRune (b :: rest)
    if r = RuneError ∧ size = 1 then false
    else validLoop fuel ((b :: rest).drop size)

/-- Go `utf8.Valid`: `s` is a sequence of valid UTF-8 encodings. -/
def Valid (s : GoString) : Bool := validLoop s.length s

/-! ## The serialised form of a collection (`encoding/json`) -/

/-- The digit of `"0123456789abcdef"` at index `n`. -/
def hexDigit (n : Nat) : Nat := if n < 10 then 48 + n else 87 + n

/-- Go `htmlSafeSet` of `encoding/json`: the ASCII bytes a string is written
with unescaped, all from the space on but the quote, the backslash and
`&`, `<`, `>`. -/
def htmlSafe (b : Nat) : Bool :=
  decide (0x20 ≤ b ∧ b ≠ 34 ∧ b ≠ 92 ∧ b ≠ 38 ∧ b ≠ 60 ∧ b ≠ 62)

/-- The escape `encoding/json` writes for an ASCII byte outside `htmlSafeSet`. -/
def escapeByte (b : Nat) : List Nat :=
  if b = 92 ∨ b = 34 then [92, b]
  else if b = 8 then [92, 98]
  else if b = 12 then [92, 102]
  else if b = 10 then [92, 110]
  else if b = 13 then [92, 114]
  else if b = 9 then [92, 116]
  else [92, 117, 48, 48, hexDigit (b / 16), hexDigit (b % 16)]

/-- Modelled from the spec: the serialised form of a string, which the
repository leaves to `encoding/json` (`appendString`, HTML escaping on).
The loop over the bytes of the string, without the two quotes: a safe ASCII
byte and a valid multi-byte encoding are copied, an invalid byte becomes
the six bytes `\ufffd`, U+2028 and U+2029 become `\u2028` and `\u2029`. -/
def appendStringLoop : Nat → GoString → List Nat
  | _, [] => []
  | 0, _ :: _ => []
  | fuel + 1, b :: rest =>
    if b < 0x80 then
      if htmlSafe b then b :: appendStringLoop fuel rest
      else escapeByte b ++ appendStringLoop fuel rest
    else
      let (c, size) := decodeRune (b :: rest)
      if c = RuneError ∧ size = 1 then
        [92, 117, 102, 102, 102, 100] ++ appendStringLoop fuel rest
      else if c = 0x2028 ∨ c = 0x2029 then
        [92, 117, 50, 48, 50, hexDigit (c % 16)] ++ appendStringLoop fuel ((b :: rest).drop size)
      else
        (b :: rest).take size ++ appendStringLoop fuel ((b :: rest).drop size)

/-- Modelled from the spec: the serialised form of a string (`encoding/json`,
outside the repository): the escaped bytes between two quotes. -/
def appendString (s : GoString) : List Nat :=
  34 :: (appendStringLoop s.length s ++ [34])

/-- The decimal digits of `n`, most significant first, put before `acc`. -/
def appendDigits : Nat → Nat → List Nat → List Nat
  | 0, n, acc => (48 + n % 10) :: acc
  | fuel + 1, n, acc =>
    if n < 10 then (48 + n) :: acc
    else appendDigits fuel (n / 10) ((48 + n % 10) :: acc)

/-- Go `strconv.AppendInt(nil, i, 10)`, the `%d` of `fmt.Sprintf` and the
form `encoding/json` writes an `int` in. -/
def appendInt (i : Int) : List Nat :=
  if i < 0 then 45 :: appendDigits i.natAbs i.natAbs []
  else appendDigits i.natAbs i.natAbs []

/-- The elements of a JSON array, separated by commas. -/
def appendElems {α : Type} (enc : α → List Nat) : List α → List Nat
  | [] => []
  | [x] => enc x
  | x :: y :: rest => enc x ++ 44 :: appendElems enc (y :: rest)

/-- Modelled from the spec: the serialised form of a slice (`encoding/json`,
outside the repository): `null` for the nil slice, else the elements between
brackets. -/
def appendSlice {α : Type} (enc : α → List Nat) : List α → List Nat
  | [] => ascii "null"
  | x :: rest => 91 :: (appendElems enc (x :: rest) ++ [93])

/-- Modelled from the spec: the serialised form of a `Card`, the fields in
the order and under the keys of the struct declaration (lines 16 to 19). -/
def marshalCard (c : Card) : List Nat :=
  ascii "\x7b\"word\":" ++ appendString c.Word
    ++ ascii ",\"translation\":" ++ appendString c.Translation ++ ascii "\x7d"

/-- Modelled from the spec: the serialised form of a `Set`, the fields in the
order and under the keys of the struct declaration (lines 21 to 25). -/
def marshalSet (s : Set) : List Nat :=
  ascii "\x7b\"name\":" ++ appendString s.Name
    ++ ascii ",\"cards\":" ++ appendSlice marshalCard s.Cards
    ++ ascii ",\"index\":" ++ appendInt s.Index ++ ascii "\x7d"

/-- Modelled from the spec: `json.Marshal(sets)` for a `[]Set`
(`encoding/json`, outside the repository).  It has no failure case for this
type. -/
def Marshal (sets : List Set) : List Nat :=
  appendSlice marshalSet sets

/-- The value of a hexadecimal digit, upper or lower case. -/
def hexValue (c : Nat) : Option Nat :=
  if 48 ≤ c ∧ c ≤ 57 then some (c - 48)
  else if 97 ≤ c ∧ c ≤ 102 then some (c - 87)
  else if 65 ≤ c ∧ c ≤ 70 then some (c - 55)
  else none

/-- Go `getu4` of `encoding/json`: the rune of an escape `\uXXXX` at the
start of `s`. -/
def getu4 : List Nat → Option Nat
  | 92 :: 117 :: a :: b :: c :: d :: _ =>
    match hexValue a, hexValue b, hexValue c, hexValue d with
    | some x, some y, some z, some w => some (x * 4096 + y * 256 + z * 16 + w)
    | _, _, _, _ => none
  | _ => none

/-- Go `utf16.DecodeRune`: the rune of a surrogate pair, U+FFFD when the two
are not one. -/
def utf16DecodeRune (r1 r2 : Nat) : Nat :=
  if 0xD800 ≤ r1 ∧ r1 < 0xDC00 ∧ 0xDC00 ≤ r2 ∧ r2 < 0xE000 then
    (r1 - 0xD800) * 1024 + (r2 - 0xDC00) + 0x10000
  else RuneError

/-- Modelled from the spec: reading a string back (`unquote` of
`encoding/json`, outside the repository).  The loop runs on the bytes after
the opening quote, `out` holds the bytes decoded so far; it returns them with
the input left after the closing quote.  A control byte and a malformed
escape are errors, a multi-byte encoding is decoded and encoded again, so
that an invalid byte becomes U+FFFD. -/
def unquoteLoop : Nat → List Nat → GoString → Option (GoString × List Nat)
  | 0, _, _ => none
  | _ + 1, [], _ => none
  | fuel + 1, c :: rest, out =>
    if c = 34 then some (out, rest)
    else if c = 92 then
      match rest with
      | [] => none
      | e :: rest1 =>
        if e = 34 ∨ e = 92 ∨ e = 47 then unquoteLoop fuel rest1 (out ++ [e])
        else if e = 98 then unquoteLoop fuel rest1 (out ++ [8])
        else if e = 102 then unquoteLoop fuel rest1 (out ++ [12])
        else if e = 110 then unquoteLoop fuel rest1 (out ++ [10])
        else if e = 114 then unquoteLoop fuel rest1 (out ++ [13])
        else if e = 116 then unquoteLoop fuel rest1 (out ++ [9])
        else if e = 117 then
          match getu4 (c :: e :: rest1) with
          | none => none
          | some rr =>
            if 0xD800 ≤ rr ∧ rr < 0xE000 then
              match getu4 (rest1.drop 4) with
              | some rr1 =>
                if utf16DecodeRune rr rr1 ≠ RuneError then
                  unquoteLoop fuel (rest1.drop 10) (out ++ encodeRune (utf16DecodeRune rr rr1))
                else unquoteLoop fuel (rest1.drop 4) (out ++ encodeRune RuneError)
              | none => unquoteLoop fuel (rest1.drop 4) (out ++ encodeRune RuneError)
            else unquoteLoop fuel (rest1.drop 4) (out ++ encodeRune rr)
        else none
    else if c < 0x20 then none
    else if c < 0x80 then unquoteLoop fuel rest (out ++ [c])
    else
      let (rr, size) := decodeRune (c :: rest)
      unquoteLoop fuel ((c :: rest).drop size) (out ++ encodeRune rr)

/-- Modelled from the spec: reading a JSON string at the start of `input`
(`encoding/json`, outside the repository). -/
def unquote : List Nat → Option (GoString × List Nat)
  | 34 :: rest => unquoteLoop rest.length rest []
  | _ => none

/-- The value of the decimal digits at the start of `input`, after the
digits of value `acc`, and the input left. -/
def parseDigits : List Nat → Nat → Nat × List Nat
  | [], acc => (acc, [])
  | c :: rest, acc =>
    if 48 ≤ c ∧ c ≤ 57 then parseDigits rest (acc * 10 + (c - 48))
    else (acc, c :: rest)

/-- A JSON number without sign that fits an `int`: `0` alone or digits that
do not start with `0`, with no fraction and no exponent after them. -/
def parseNat : List Nat → Option (Nat × List Nat)
  | [] => none
  | c :: rest =>
    if c = 48 then
      match rest with
      | d :: _ => if (48 ≤ d ∧ d ≤ 57) ∨ d = 46 ∨ d = 101 ∨ d = 69 then none else some (0, rest)
      | [] => some (0, rest)
    else if 49 ≤ c ∧ c ≤ 57 then
      match parseDigits rest (c - 48) with
      | (n, d :: rest1) => if d = 46 ∨ d = 101 ∨ d = 69 then none else some (n, d :: rest1)
      | (n, []) => some (n, [])
    else none

/-- Modelled from the spec: reading an `int` back (`encoding/json`, outside
the repository): an optional minus sign and a number. -/
def parseInt : List Nat → Option (Int × List Nat)
  | 45 :: rest =>
    match parseNat rest with
    | some (n, rest1) => some (-(n : Int), rest1)
    | none => none
  | input =>
    match parseNat input with
    | some (n, rest1) => some ((n : Int), rest1)
    | none => none

/-- The input left after the bytes `lit`, when `input` starts with them. -/
def expect (lit : List Nat) (input : List Nat) : Option (List Nat) :=
  if lit.isPrefixOf input then some (input.drop lit.length) else none

/-- The elements of a JSON array up to the closing bracket, after the
elements `acc`. -/
def parseElems {α : Type} (elem : List Nat → Option (α × List Nat)) :
    Nat → List Nat → List α → Option (List α × List Nat)
  | 0, _, _ => none
  | fuel + 1, input, acc =>
    match elem input with
    | none => none
    | some (x, rest) =>
      match rest with
      | 44 :: rest1 => parseElems elem fuel rest1 (acc ++ [x])
      | 93 :: rest1 => some (acc ++ [x], rest1)
      | _ => none

/-- Modelled from the spec: reading a slice back (`encoding/json`, outside
the repository): `null` and `[]` give the empty list. -/
def parseSlice {α : Type} (elem : List Nat → Option (α × List Nat)) :
    List Nat → Option (List α × List Nat)
  | 110 :: 117 :: 108 :: 108 :: rest => some ([], rest)
  | 91 :: 93 :: rest => some ([], rest)
  | 91 :: rest => parseElems elem rest.length rest []
  | _ => none

/-- Modelled from the spec: reading a `Card` back, in the form `marshalCard`
writes. -/
def parseCard (input : List Nat) : Option (Card × List Nat) :=
  match expect (ascii "\x7b\"word\":") input with
  | none => none
  | some r1 =>
    match unquote r1 with
    | none => none
    | some (word, r2) =>
      match expect (ascii ",\"translation\":") r2 with
      | none => none
      | some r3 =>
        match unquote r3 with
        | none => none
        | some (translation, r4) =>
          match expect (ascii "\x7d") r4 with
          | none => none
          | some r5 => some ({ Word := word, Translation := translation }, r5)

/-- Modelled from the spec: reading a `Set` back, in the form `marshalSet`
writes. -/
def parseSet (input : List Nat) : Option (Set × List Nat) :=
  match expect (ascii "\x7b\"name\":") input with
  | none => none
  | some r1 =>
    match unquote r1 with
    | none => none
    | some (name, r2) =>
      match expect (ascii ",\"cards\":") r2 with
      | none => none
      | some r3 =>
        match parseSlice parseCard r3 with
        | none => none
        | some (cards, r4) =>
          match expect (ascii ",\"index\":") r4 with
          | none => none
          | some r5 =>
            match parseInt r5 with
            | none => none
            | some (index, r6) =>
              match expect (ascii "\x7d") r6 with
              | none => none
              | some r7 => some ({ Name := name, Cards := cards, Index := index }, r7)

/-- Modelled from the spec: `json.Unmarshal(data, &sets)` for a `[]Set`
(`encoding/json`, outside the repository), on the compact form that
`Marshal` writes.  JSON texts in another layout (white space, other key
order, unknown keys), which the library reads too, are errors here; the
cache file is written by `saveSetsToFile` only. -/
def Unmarshal (data : List Nat) : Except String (List Set) :=
  match parseSlice parseSet data with
  | some (sets, []) => Except.ok sets
  | _ => Except.error "json: cannot unmarshal"

/-! ## The world outside the program -/

/-- The errors the program meets.  `ErrNoSetAtIndex` is the package variable
of line 14; the others come from the library calls. -/
inductive Error where
  | ErrNoSetAtIndex
  | http (cause : String)
  | read (cause : String)
  | json (cause : String)
  | exist
  | notExist
  | permission
  | isDir
  | notDir
deriving DecidableEq, Repr

/-- The outcome of `http.Get(url)` followed by `ioutil.ReadAll(res.Body)`. -/
inductive HttpResult where
  | getFailed (cause : String)
  | readFailed (cause : String)
  | body (data : List Nat)
deriving DecidableEq, Repr

/-- The library behaviour the program is run against: the remote service
(`httpGet`, from the URL to the outcome of the request), `json.Unmarshal` of
a page of the service into a `Set` (`unmarshalSet`) and
`strings.Map(unicode.ToLower, s)` (`mapLower`). -/
structure Env where
  httpGet : GoString → HttpResult
  unmarshalSet : List Nat → Except String Set
  mapLower : GoString → GoString

/-- An entry of the file system: a directory or a file with its content. -/
inductive Node where
  | dir
  | file (data : List Nat)
deriving DecidableEq, Repr

/-- The file system under the working directory: the entries by path, and
whether the working directory refuses writes. -/
structure FileSystem where
  entries : List (GoString × Node)
  readOnly : Bool
deriving DecidableEq, Repr

/-- The entry at `path`, if any. -/
def FileSystem.lookup (fs : FileSystem) (path : GoString) : Option Node :=
  (fs.entries.find? (fun e => decide (e.1 = path))).map (fun e => e.2)

/-- The directories a relative path goes through: its prefixes before each
slash, the shortest first. -/
def ancestors (path : GoString) : List GoString :=
  ((List.range path.length).filter (fun i => decide (path.getD i 0 = 47))).map
    (fun i => path.take i)

/-- The error of resolving the directories `dirs` of a path, if any:
`notExist` (ENOENT) at the first one that is missing, `notDir` (ENOTDIR) at
the first one that is a file. -/
def walk (fs : FileSystem) : List GoString → Option Error
  | [] => none
  | d :: dirs =>
    match fs.lookup d with
    | some Node.dir => walk fs dirs
    | some (Node.file _) => some Error.notDir
    | none => some Error.notExist

/-- Go `os.Stat`, reduced to its error: the error of resolving the
directories of the path, else `notExist` when nothing is at `path`.  Only
`notExist` satisfies `errors.Is(err, fs.ErrNotExist)`. -/
def Stat (fs : FileSystem) (path : GoString) : Option Error :=
  match walk fs (ancestors path) with
  | some err => some err
  | none =>
    match fs.lookup path with
    | none => some Error.notExist
    | some _ => none

/-- Go `os.Mkdir(name, perm)` for a name in the working directory: an error
when something is at `name` already or when writes are refused, else the
directory is added. -/
def Mkdir (fs : FileSystem) (name : GoString) : FileSystem × Option Error :=
  match fs.lookup name with
  | some _ => (fs, some Error.exist)
  | none =>
    if fs.readOnly then (fs, some Error.permission)
    else ({ fs with entries := (name, Node.dir) :: fs.entries }, none)

/-- Go `ioutil.WriteFile(filename, data, perm)`: creates the file or replaces
its content; an error when writes are refused, when a directory of the path
is missing or is a file, or when the path is a directory. -/
def WriteFile (fs : FileSystem) (filename : GoString) (data : List Nat) :
    FileSystem × Option Error :=
  if fs.readOnly then (fs, some Error.permission)
  else
    match walk fs (ancestors filename) with
    | some err => (fs, some err)
    | none =>
      if fs.lookup filename = some Node.dir then (fs, some Error.isDir)
      else
        ({ fs with entries :=
            (filename, Node.file data)
              :: fs.entries.filter (fun e => decide (e.1 ≠ filename)) },
          none)

/-- Go `ioutil.ReadFile(filename)`: the content of the file, or the error of
resolving the directories of the path, of a missing file or of a
directory. -/
def ReadFile (fs : FileSystem) (filename : GoString) : Except Error (List Nat) :=
  match walk fs (ancestors filename) with
  | some err => Except.error err
  | none =>
    match fs.lookup filename with
    | some (Node.file data) => Except.ok data
    | some Node.dir => Except.error Error.isDir
    | none => Except.error Error.notExist

/-! ## `loadSet` and `loadAllSetsFromApi` (`main.go`, lines 27 to 56 and 82 to 98) -/

/-- The URL of line 28:
`fmt.Sprintf("https://www.tofulearn.com/papi/getDeckTemplate/%s/%d", deckId, setIndex)`. -/
def setUrl (deckId : GoString) (setIndex : Int) : GoString :=
  ascii "https://www.tofulearn.com/papi/getDeckTemplate/" ++ deckId
    ++ ascii "/" ++ appendInt setIndex

/-- Go `loadSet`.  On an error Go returns the zero `Set` with it, so the
result is the error alone. -/
def loadSet (env : Env) (deckId : GoString) (setIndex : Int) : Except Error Set :=
  let url := setUrl deckId setIndex
  match env.httpGet url with
  | HttpResult.getFailed cause => Except.error (Error.http cause)
  | HttpResult.readFailed cause => Except.error (Error.read cause)
  | HttpResult.body data =>
    if data.length ≤ 5 then Except.error Error.ErrNoSetAtIndex
    else
      match env.unmarshalSet (data.drop 3) with
      | Except.error cause => Except.error (Error.json cause)
      | Except.ok set => Except.ok { set with Index := setIndex }

/-- The `for i := 0; ; i++` loop of `loadAllSetsFromApi`, from page `i` on
with the slice `sets` built so far.  The result is the pair Go returns, the
slice and the error (`none` for `nil`); `none` when the fuel runs out. -/
def loadAllSetsFromApiLoop (env : Env) (deckId : GoString) :
    Nat → Nat → List Set → Option (List Set × Option Error)
  | 0, _, _ => none
  | fuel + 1, i, sets =>
    match loadSet env deckId (i : Int) with
    | Except.error err =>
      if err = Error.ErrNoSetAtIndex then some (sets, none)
      else some (sets, some err)
    | Except.ok set => loadAllSetsFromApiLoop env deckId fuel (i + 1) (sets ++ [set])

/-- Go `loadAllSetsFromApi`. -/
def loadAllSetsFromApi (env : Env) (deckId : GoString) (fuel : Nat) :
    Option (List Set × Option Error) :=
  loadAllSetsFromApiLoop env deckId fuel 0 []

/-! ## `saveSetsToFile` and `main` (`main.go`, lines 100 to 163) -/

/-- Go `saveSetsToFile`: the file system it leaves and the error it returns.
`json.Marshal` has no failure case for a `[]Set`, so line 103 is not
reached. -/
def saveSetsToFile (fs : FileSystem) (sets : List Set) (filepath : GoString) :
    FileSystem × Option Error :=
  let json := Marshal sets
  match Mkdir fs (ascii "cache") with
  | (fs1, some err) => (fs1, some err)
  | (fs1, none) =>
    match WriteFile fs1 filepath json with
    | (fs2, some err) => (fs2, some err)
    | (fs2, none) => (fs2, none)

/-- The deck of `main` (line 121). -/
def deckId : GoString := ascii "57a5f40fe02107451d3d3c81"

/-- The term `main` searches for (line 122). -/
def wordToSearch : GoString := ascii "je"

/-- The path of the cache file of `main` (line 125). -/
def cachedSetsFilepath : GoString := ascii "cache/" ++ deckId

/-- Go `main`: the file system it leaves and either the error it panics with
or the slices of matches its search loop prints (the other lines it prints
are left out); `none` when the fuel of the acquisition runs out.

In the branch of the absent cache file, line 131 declares with `:=` a new
variable `sets` inside the block; the `sets` of line 126, which the search
loop reads, is not assigned there and is still `nil` after the block. -/
def main (env : Env) (fs : FileSystem) (fuel : Nat) :
    Option (FileSystem × Except Error (List (List Match))) :=
  if Stat fs cachedSetsFilepath = some Error.notExist then
    match loadAllSetsFromApi env deckId fuel with
    | none => none
    | some (_, some err) => some (fs, Except.error err)
    | some (setsInner, none) =>
      match saveSetsToFile fs setsInner cachedSetsFilepath with
      | (fs1, some err) => some (fs1, Except.error err)
      | (fs1, none) => some (fs1, Except.ok (searchLoop env.mapLower wordToSearch []))
  else
    match ReadFile fs cachedSetsFilepath with
    | Except.error err => some (fs, Except.error err)
    | Except.ok data =>
      match Unmarshal data with
      | Except.error cause => some (fs, Except.error (Error.json cause))
      | Except.ok sets => some (fs, Except.ok (searchLoop env.mapLower wordToSearch sets))

/-! ## The search as the specification words it -/

/-- The match the specification asks for the card at position `i` of `s`. -/
def matchAt (s : Set) (i : Nat) (c : Card) : Match :=
  { SetIndex := wrapInt (s.Index + 1), WordIndex := (i : Int) + 1,
    Word := c.Word, Translation := c.Translation }

/-- The search as the specification words it: the cards, numbered from
`start`, whose lower-cased word has the lower-cased query as a substring,
each turned into its match. -/
def searchSpecFrom (mapLower : GoString → GoString) (s : Set) (q : GoString) :
    Nat → List Card → List Match
  | _, [] => []
  | i, c :: cs =>
    if ToLower mapLower q <:+: ToLower mapLower c.Word then
      matchAt s i c :: searchSpecFrom mapLower s q (i + 1) cs
    else searchSpecFrom mapLower s q (i + 1) cs

/-- One match for every card, numbered from `start`. -/
def allMatchesFrom (s : Set) : Nat → List Card → List Match
  | _, [] => []
  | i, c :: cs => matchAt s i c :: allMatchesFrom s (i + 1) cs

/-! ## Collections of valid text -/

/-- Both strings of the card are valid UTF-8. -/
def Card.validText (c : Card) : Bool := Valid c.Word && Valid c.Translation

/-- The name of the set and the strings of its cards are valid UTF-8. -/
def Set.validText (s : Set) : Bool := Valid s.Name && s.Cards.all Card.validText

/-- Every string of the collection is valid UTF-8. -/
def validCollection (sets : List Set) : Bool := sets.all Set.validText

/-! ## Sample inputs -/

/-- The set of the search example of the specification. -/
def sampleSet : Set :=
  { Name := ascii "A",
    Cards := [⟨ascii "Je", ascii "I"⟩, ⟨ascii "Tu", ascii "you"⟩],
    Index := 0 }

/-- A set of index 2 whose card at position 4 matches `je`. -/
def sampleSetFive : Set :=
  { Name := ascii "B",
    Cards := [⟨ascii "Tu", ascii "you"⟩, ⟨ascii "Il", ascii "he"⟩, ⟨ascii "Elle", ascii "she"⟩,
              ⟨ascii "Nous", ascii "we"⟩, ⟨ascii "Jeu", ascii "game"⟩],
    Index := 2 }

/-- A set whose name is the single byte `0xFF`, which is not valid UTF-8. -/
def badNameSet : Set := { Name := [0xFF], Cards := [], Index := 0 }

/-- A page of the remote service: three bytes, then a set. -/
def samplePage : List Nat :=
  [0xEF, 0xBB, 0xBF] ++ ascii ("\x7b\"name\":\"A\",\"cards\":[\x7b\"word\":\"Je\",\"translation\":\"I\"\x7d,"
    ++ "\x7b\"word\":\"Tu\",\"translation\":\"you\"\x7d],\"index\":9\x7d")

/-- A decoder of pages for the sample runs: a set in the compact form. -/
def sampleDecode (data : List Nat) : Except String Set :=
  match parseSet data with
  | some (set, []) => Except.ok set
  | _ => Except.error "json: cannot unmarshal"

/-- A remote service with one set, at page 0, and the short answer of five
bytes at every other page. -/
def sampleEnv : Env :=
  { httpGet := fun url =>
      if url = setUrl deckId 0 then HttpResult.body samplePage
      else HttpResult.body ([0xEF, 0xBB, 0xBF] ++ ascii "[]"),
    unmarshalSet := sampleDecode,
    mapLower := id }

/-- A remote service with one set, at page 0, and a failing request at every
other page. -/
def failingEnv : Env :=
  { httpGet := fun url =>
      if url = setUrl deckId 0 then HttpResult.body samplePage
      else HttpResult.getFailed "connection refused",
    unmarshalSet := sampleDecode,
    mapLower := id }

/-- A file system with nothing in the working directory. -/
def emptyFs : FileSystem := { entries := [], readOnly := false }

/-- A file system in which `cache` is a regular file. -/
def cacheFileFs : FileSystem :=
  { entries := [(ascii "cache", Node.file [])], readOnly := false }

/-- A set whose index is the largest `int`, with one card. -/
def maxIndexSet : Set :=
  { Name := ascii "Z", Cards := [⟨ascii "Je", ascii "I"⟩], Index := 9223372036854775807 }

/-- A file system whose `cache` directory exists and is empty. -/
def cacheDirFs : FileSystem := { entries := [(ascii "cache", Node.dir)], readOnly := false }

/-! ## Lemmas on the search -/

theorem contains_iff_occurs (s substr : GoString) :
    Contains s substr = true ↔ substr <:+: s := by
  induction s with
  | nil =>
    simp [Contains, List.isEmpty_iff]
  | cons c s ih =>
    simp only [Contains, Bool.or_eq_true, ih, List.isPrefixOf_iff_prefix]
    rw [List.infix_cons_iff]

theorem findMatchesLoop_eq (mapLower : GoString → GoString) (s : Set) (q : GoString)
    (cards : List Card) (i : Nat) (acc : List Match) :
    findMatchesLoop mapLower s (ToLower mapLower q) i cards acc
      = acc ++ searchSpecFrom mapLower s q i cards := by
  induction cards generalizing i acc with
  | nil => simp [findMatchesLoop, searchSpecFrom]
  | cons c cs ih =>
    simp only [findMatchesLoop, searchSpecFrom]
    by_cases h : ToLower mapLower q <:+: ToLower mapLower c.Word
    · rw [if_pos ((contains_iff_occurs _ _).2 h), if_pos h, ih]
      simp [matchAt]
    · have h' : ¬ Contains (ToLower mapLower c.Word) (ToLower mapLower q) = true :=
        fun hc => h ((contains_iff_occurs _ _).1 hc)
      rw [if_neg h', if_neg h, ih]

theorem findMatches_eq_spec (mapLower : GoString → GoString) (s : Set) (q : GoString) :
    findMatches mapLower s q = searchSpecFrom mapLower s q 0 s.Cards := by
  simp [findMatches, findMatchesLoop_eq]

theorem toLower_nil (mapLower : GoString → GoString) : ToLower mapLower [] = [] := by
  simp [ToLower]

theorem searchSpecFrom_nil (mapLower : GoString → GoString) (s : Set) (cards : List Card)
    (i : Nat) : searchSpecFrom mapLower s [] i cards = allMatchesFrom s i cards := by
  induction cards generalizing i with
  | nil => rfl
  | cons c cs ih =>
    simp only [searchSpecFrom, allMatchesFrom, toLower_nil]
    rw [if_pos List.nil_infix, ih]

theorem searchSpecFrom_eq_enum (mapLower : GoString → GoString) (s : Set) (q : GoString)
    (cards : List Card) (i : Nat) :
    searchSpecFrom mapLower s q i cards
      = ((cards.enumFrom i).filter
            (fun p => decide (ToLower mapLower q <:+: ToLower mapLower p.2.Word))).map
          (fun p => matchAt s p.1 p.2) := by
  induction cards generalizing i with
  | nil => rfl
  | cons c cs ih =>
    simp only [searchSpecFrom, List.enumFrom_cons, List.filter_cons, decide_eq_true_eq]
    by_cases h : ToLower mapLower q <:+: ToLower mapLower c.Word
    · rw [if_pos h, if_pos h, ih, List.map_cons]
    · rw [if_neg h, if_neg h, ih]

theorem allMatchesFrom_eq_enum (s : Set) (cards : List Card) (i : Nat) :
    allMatchesFrom s i cards = (cards.enumFrom i).map (fun p => matchAt s p.1 p.2) := by
  induction cards generalizing i with
  | nil => rfl
  | cons c cs ih => simp only [allMatchesFrom, List.enumFrom_cons, List.map_cons, ih]

theorem findMatches_nil (mapLower : GoString → GoString) (s : Set) :
    findMatches mapLower s [] = s.Cards.enum.map (fun p => matchAt s p.1 p.2) := by
  rw [findMatches_eq_spec, searchSpecFrom_nil, allMatchesFrom_eq_enum, List.enum]

theorem searchLoop_join (mapLower : GoString → GoString) (q : GoString) (sets : List Set) :
    (searchLoop mapLower q sets).flatten = sets.flatMap (fun s => findMatches mapLower s q) := by
  induction sets with
  | nil => rfl
  | cons s sets ih =>
    simp only [searchLoop, List.flatMap_cons]
    by_cases h : (findMatches mapLower s q).length > 0
    · rw [if_pos h, List.flatten_cons, ih]
    · rw [if_neg h, ih]
      have h0 : findMatches mapLower s q = [] := by
        apply List.eq_nil_of_length_eq_zero
        omega
      rw [h0, List.nil_append]

/-! ## The search: claims C2, C6 and C7 -/

theorem wrapInt_of_range (x : Int) (h1 : -9223372036854775808 ≤ x)
    (h2 : x ≤ 9223372036854775807) : wrapInt x = x := by
  unfold wrapInt
  omega

theorem wrapInt_succ (x : Int) (h : minInt ≤ x ∧ x < maxInt) : wrapInt (x + 1) = x + 1 := by
  simp only [minInt, maxInt] at h
  exact wrapInt_of_range (x + 1) (by omega) (by omega)

theorem wrapInt_succ_maxInt : wrapInt (maxInt + 1) = minInt := by
  decide

/-- C2, with the addition of Go: for every set `s` and query `q`,
`findMatches` returns, in card order, exactly one match for each card
position `i` of `s.Cards` whose lower-cased word has the lower-cased query as
a substring, with `WordIndex = i + 1`, the word and translation of the card
as they are, and `SetIndex` the Go `int` sum `s.Index + 1`: the integer
`s.Index + 1` when `s.Index` is an `int` below the largest one, the smallest
`int` when `s.Index` is the largest; the set
`{Index: 0, Cards: [{Je, I}, {Tu, you}]}` and the query `je` give exactly
`[{1, 1, Je, I}]`; a matching card at position 4 of a set of index 2 gives
the match `{3, 5, word, translation}`. -/
theorem findMatches_spec (mapLower : GoString → GoString) (s : Set) (q : GoString) :
    findMatches mapLower s q
        = ((s.Cards.enum.filter
              (fun p => decide (ToLower mapLower q <:+: ToLower mapLower p.2.Word))).map
            (fun p => { SetIndex := wrapInt (s.Index + 1), WordIndex := (p.1 : Int) + 1,
                        Word := p.2.Word, Translation := p.2.Translation }))
      ∧ (minInt ≤ s.Index ∧ s.Index < maxInt →
          findMatches mapLower s q
            = ((s.Cards.enum.filter
                  (fun p => decide (ToLower mapLower q <:+: ToLower mapLower p.2.Word))).map
                (fun p => { SetIndex := s.Index + 1, WordIndex := (p.1 : Int) + 1,
                            Word := p.2.Word, Translation := p.2.Translation })))
      ∧ (s.Index = maxInt →
          findMatches mapLower s q
            = ((s.Cards.enum.filter
                  (fun p => decide (ToLower mapLower q <:+: ToLower mapLower p.2.Word))).map
                (fun p => { SetIndex := minInt, WordIndex := (p.1 : Int) + 1,
                            Word := p.2.Word, Translation := p.2.Translation })))
      ∧ findMatches mapLower
            { Name := s.Name, Cards := [⟨ascii "Je", ascii "I"⟩, ⟨ascii "Tu", ascii "you"⟩],
              Index := 0 } (ascii "je")
          = [{ SetIndex := 1, WordIndex := 1, Word := ascii "Je", Translation := ascii "I" }]
      ∧ (∀ c : Card, s.Index = 2 → s.Cards[4]? = some c →
            ToLower mapLower q <:+: ToLower mapLower c.Word →
            ({ SetIndex := 3, WordIndex := 5, Word := c.Word, Translation := c.Translation } : Match)
              ∈ findMatches mapLower s q) := by
  have hmain : findMatches mapLower s q
        = ((s.Cards.enum.filter
              (fun p => decide (ToLower mapLower q <:+: ToLower mapLower p.2.Word))).map
            (fun p => { SetIndex := wrapInt (s.Index + 1), WordIndex := (p.1 : Int) + 1,
                        Word := p.2.Word, Translation := p.2.Translation })) := by
    rw [findMatches_eq_spec, searchSpecFrom_eq_enum, List.enum]
    rfl
  refine ⟨hmain, ?_, ?_, by rfl, ?_⟩
  · intro hb
    rw [hmain, wrapInt_succ s.Index hb]
  · intro hmax
    rw [hmain, hmax, wrapInt_succ_maxInt]
  · intro c hidx hc hsub
    rw [hmain, List.mem_map]
    refine ⟨(4, c), ?_, ?_⟩
    · rw [List.mem_filter]
      refine ⟨?_, by simpa using hsub⟩
      rw [List.mem_iff_getElem?]
      exact ⟨4, by rw [List.getElem?_enum, hc]; rfl⟩
    · have h3 : wrapInt (s.Index + 1) = 3 := by
        rw [hidx]
        decide
      simp [h3]

/-- The theorem of C2 at the set of index 2 with five cards and the query
`je`, and at the set whose index is the largest `int`. -/
theorem findMatches_spec_witness :
    ({ SetIndex := 3, WordIndex := 5, Word := ascii "Jeu", Translation := ascii "game" } : Match)
        ∈ findMatches id sampleSetFive (ascii "je")
      ∧ findMatches id sampleSetFive (ascii "je")
          = [{ SetIndex := sampleSetFive.Index + 1, WordIndex := 5,
               Word := ascii "Jeu", Translation := ascii "game" }]
      ∧ findMatches id maxIndexSet (ascii "je")
          = [{ SetIndex := minInt, WordIndex := 1, Word := ascii "Je", Translation := ascii "I" }] :=
  ⟨(findMatches_spec id sampleSetFive (ascii "je")).2.2.2.2 ⟨ascii "Jeu", ascii "game"⟩ rfl rfl
      (by decide),
    by
      rw [(findMatches_spec id sampleSetFive (ascii "je")).2.1 ⟨by decide, by decide⟩]
      decide,
    by
      rw [(findMatches_spec id maxIndexSet (ascii "je")).2.2.1 rfl]
      decide⟩

/-- C2 as stated fails: for the set whose index is the largest `int`, the
match of its card has the smallest `int` as `SetIndex`, not the index plus
one. -/
theorem findMatches_index_wraps :
    findMatches id maxIndexSet (ascii "je")
        = [{ SetIndex := -9223372036854775808, WordIndex := 1,
             Word := ascii "Je", Translation := ascii "I" }]
      ∧ (-9223372036854775808 : Int) ≠ maxIndexSet.Index + 1 :=
  ⟨by decide, by decide⟩

/-- C6: the search is case-insensitive in the query: two queries with the
same lower-cased form give the same list of matches on every set. -/
theorem findMatches_query_case (mapLower : GoString → GoString) (s : Set) (q1 q2 : GoString)
    (h : ToLower mapLower q1 = ToLower mapLower q2) :
    findMatches mapLower s q1 = findMatches mapLower s q2 := by
  simp only [findMatches, h]

/-- The theorem of C6 at the queries `JE` and `je`. -/
theorem findMatches_query_case_witness :
    ToLower id (ascii "JE") = ToLower id (ascii "je")
      ∧ findMatches id sampleSet (ascii "JE") = findMatches id sampleSet (ascii "je")
      ∧ findMatches id sampleSet (ascii "JE")
          = [{ SetIndex := 1, WordIndex := 1, Word := ascii "Je", Translation := ascii "I" }] :=
  ⟨by decide, findMatches_query_case id sampleSet (ascii "JE") (ascii "je") (by decide),
    by decide⟩

/-- C7, with the addition of Go: with the empty query `findMatches` returns
one match for each card of the set, in card order: as many matches as cards,
the one at position `i` being `{s.Index + 1, i + 1, word, translation}` of
card `i`, where `s.Index + 1` is the Go `int` sum, the integer `s.Index + 1`
when `s.Index` is an `int` below the largest one; and the matches printed by
the search loop of `main` over a collection are, put end to end, one match
for each card in set order then card order. -/
theorem findMatches_empty_query (mapLower : GoString → GoString) (s : Set) (sets : List Set) :
    findMatches mapLower s []
        = s.Cards.enum.map
            (fun p => { SetIndex := wrapInt (s.Index + 1), WordIndex := (p.1 : Int) + 1,
                        Word := p.2.Word, Translation := p.2.Translation })
      ∧ (findMatches mapLower s []).length = s.Cards.length
      ∧ (∀ i : Nat, (findMatches mapLower s [])[i]?
            = (s.Cards[i]?).map
                (fun c => { SetIndex := wrapInt (s.Index + 1), WordIndex := (i : Int) + 1,
                            Word := c.Word, Translation := c.Translation }))
      ∧ (searchLoop mapLower [] sets).flatten
          = sets.flatMap (fun t => t.Cards.enum.map
              (fun p => { SetIndex := wrapInt (t.Index + 1), WordIndex := (p.1 : Int) + 1,
                          Word := p.2.Word, Translation := p.2.Translation }))
      ∧ (minInt ≤ s.Index ∧ s.Index < maxInt →
          findMatches mapLower s []
              = s.Cards.enum.map
                  (fun p => { SetIndex := s.Index + 1, WordIndex := (p.1 : Int) + 1,
                              Word := p.2.Word, Translation := p.2.Translation })
            ∧ ∀ i : Nat, (findMatches mapLower s [])[i]?
                = (s.Cards[i]?).map
                    (fun c => { SetIndex := s.Index + 1, WordIndex := (i : Int) + 1,
                                Word := c.Word, Translation := c.Translation }))
      ∧ ((∀ t ∈ sets, minInt ≤ t.Index ∧ t.Index < maxInt) →
          (searchLoop mapLower [] sets).flatten
            = sets.flatMap (fun t => t.Cards.enum.map
                (fun p => { SetIndex := t.Index + 1, WordIndex := (p.1 : Int) + 1,
                            Word := p.2.Word, Translation := p.2.Translation }))) := by
  have h1 : ∀ t : Set, findMatches mapLower t []
        = t.Cards.enum.map
            (fun p => { SetIndex := wrapInt (t.Index + 1), WordIndex := (p.1 : Int) + 1,
                        Word := p.2.Word, Translation := p.2.Translation }) := by
    intro t
    rw [findMatches_nil]
    rfl
  have h2 : ∀ i : Nat, (findMatches mapLower s [])[i]?
        = (s.Cards[i]?).map
            (fun c => { SetIndex := wrapInt (s.Index + 1), WordIndex := (i : Int) + 1,
                        Word := c.Word, Translation := c.Translation }) := by
    intro i
    rw [h1, List.getElem?_map, List.getElem?_enum]
    cases s.Cards[i]? <;> rfl
  have h3 : (searchLoop mapLower [] sets).flatten
      = sets.flatMap (fun t => t.Cards.enum.map
          (fun p => { SetIndex := wrapInt (t.Index + 1), WordIndex := (p.1 : Int) + 1,
                      Word := p.2.Word, Translation := p.2.Translation })) := by
    rw [searchLoop_join]
    congr 1
    funext t
    exact h1 t
  refine ⟨h1 s, ?_, h2, h3, ?_, ?_⟩
  · rw [h1, List.length_map, List.enum_length]
  · intro hb
    refine ⟨?_, ?_⟩
    · rw [h1, wrapInt_succ s.Index hb]
    · intro i
      rw [h2, wrapInt_succ s.Index hb]
  · intro hb
    rw [h3]
    apply List.flatMap_congr
    intro t ht
    rw [wrapInt_succ t.Index (hb t ht)]

/-- The theorem of C7 at the sample set and at the collection of the two
sample sets. -/
theorem findMatches_empty_query_witness :
    findMatches id sampleSet []
        = [{ SetIndex := 1, WordIndex := 1, Word := ascii "Je", Translation := ascii "I" },
           { SetIndex := 1, WordIndex := 2, Word := ascii "Tu", Translation := ascii "you" }]
      ∧ ((searchLoop id [] [sampleSet, sampleSetFive]).flatten).length = 7 :=
  ⟨by
      rw [((findMatches_empty_query id sampleSet []).2.2.2.2.1 ⟨by decide, by decide⟩).1]
      decide,
    by
      rw [(findMatches_empty_query id sampleSet [sampleSet, sampleSetFive]).2.2.2.2.2
        (by decide)]
      decide⟩

/-- C7 as stated fails: for the set whose index is the largest `int`, the
match the empty query gives for its card has the smallest `int` as
`SetIndex`, not the index plus one. -/
theorem findMatches_empty_query_index_wraps :
    findMatches id maxIndexSet []
        = [{ SetIndex := -9223372036854775808, WordIndex := 1,
             Word := ascii "Je", Translation := ascii "I" }]
      ∧ (findMatches id maxIndexSet [])[0]?
          ≠ some { SetIndex := maxIndexSet.Index + 1, WordIndex := 1,
                   Word := ascii "Je", Translation := ascii "I" } :=
  ⟨by decide, by decide⟩


/-! ## Acquisition: claims C3, C4, C5 and C9 -/

theorem loadSet_index (env : Env) (deckId : GoString) (setIndex : Int) (set : Set)
    (h : loadSet env deckId setIndex = Except.ok set) : set.Index = setIndex := by
  unfold loadSet at h
  simp only at h
  split at h
  · cases h
  · cases h
  · split at h
    · cases h
    · split at h
      · cases h
      · cases h
        rfl

theorem loadAllSetsFromApiLoop_pages (env : Env) (deckId : GoString) (page : Nat → Set)
    (n : Nat) : ∀ (fuel i : Nat) (sets : List Set),
      (∀ j, j < n → loadSet env deckId ((i + j : Nat) : Int) = Except.ok (page (i + j))) →
      loadAllSetsFromApiLoop env deckId (fuel + n) i sets
        = loadAllSetsFromApiLoop env deckId fuel (i + n) (sets ++ (List.range' i n).map page) := by
  induction n with
  | zero =>
    intro fuel i sets _
    simp
  | succ n ih =>
    intro fuel i sets h
    have h0 : loadSet env deckId ((i : Nat) : Int) = Except.ok (page i) := by
      simpa using h 0 (Nat.succ_pos n)
    have hrest : ∀ j, j < n →
        loadSet env deckId (((i + 1) + j : Nat) : Int) = Except.ok (page ((i + 1) + j)) := by
      intro j hj
      have := h (j + 1) (Nat.succ_lt_succ hj)
      have e : i + (j + 1) = i + 1 + j := by omega
      rwa [e] at this
    have hfuel : fuel + (n + 1) = (fuel + n) + 1 := by omega
    rw [hfuel, loadAllSetsFromApiLoop, h0]
    simp only
    rw [ih fuel (i + 1) (sets ++ [page i]) hrest]
    have e2 : i + 1 + n = i + (n + 1) := by omega
    rw [e2, List.range'_succ, List.map_cons, List.append_assoc, List.singleton_append]

theorem loadAllSetsFromApi_pages (env : Env) (deckId : GoString) (page : Nat → Set)
    (n fuel : Nat)
    (h : ∀ j, j < n → loadSet env deckId ((j : Nat) : Int) = Except.ok (page j)) :
    loadAllSetsFromApi env deckId (fuel + n)
      = loadAllSetsFromApiLoop env deckId fuel n ((List.range n).map page) := by
  have h' : ∀ j, j < n → loadSet env deckId ((0 + j : Nat) : Int) = Except.ok (page (0 + j)) := by
    intro j hj
    simpa using h j hj
  have := loadAllSetsFromApiLoop_pages env deckId page n fuel 0 [] h'
  simpa [loadAllSetsFromApi, List.range_eq_range'] using this

/-- C3: when the remote source gives a valid set for each page `0..K-1` and
the end of data (`ErrNoSetAtIndex`) at page `K`, `loadAllSetsFromApi` ends,
with any fuel above `K`, and returns a nil error with exactly `K` sets: the
set fetched for page `i` at position `i`, with `Index = i`. -/
theorem loadAllSetsFromApi_end_of_data (env : Env) (deckId : GoString) (K : Nat)
    (page : Nat → Set) (fuel : Nat)
    (hvalid : ∀ i, i < K → loadSet env deckId ((i : Nat) : Int) = Except.ok (page i))
    (hend : loadSet env deckId ((K : Nat) : Int) = Except.error Error.ErrNoSetAtIndex)
    (hfuel : K < fuel) :
    loadAllSetsFromApi env deckId fuel = some ((List.range K).map page, none)
      ∧ ((List.range K).map page).length = K
      ∧ ∀ i, i < K → ((List.range K).map page)[i]? = some (page i) ∧ (page i).Index = (i : Int) := by
  refine ⟨?_, by simp, ?_⟩
  · obtain ⟨f, rfl⟩ : ∃ f, fuel = (f + 1) + K := ⟨fuel - K - 1, by omega⟩
    rw [loadAllSetsFromApi_pages env deckId page K (f + 1) hvalid, loadAllSetsFromApiLoop, hend]
    simp
  · intro i hi
    refine ⟨?_, loadSet_index env deckId _ _ (hvalid i hi)⟩
    rw [List.getElem?_map, List.getElem?_range hi]
    rfl

/-- The theorem of C3 at the remote source with one set, at page 0. -/
theorem loadAllSetsFromApi_end_of_data_witness :
    loadAllSetsFromApi sampleEnv deckId 2 = some ((List.range 1).map (fun _ => sampleSet), none) :=
  (loadAllSetsFromApi_end_of_data sampleEnv deckId 1 (fun _ => sampleSet) 2
    (fun i hi => by
      have h0 : i = 0 := by omega
      subst h0
      rfl)
    (by rfl) (by decide)).1

theorem loadAllSetsFromApi_stops (env : Env) (deckId : GoString) (J : Nat)
    (page : Nat → Set) (err : Error) (fuel : Nat)
    (hvalid : ∀ i, i < J → loadSet env deckId ((i : Nat) : Int) = Except.ok (page i))
    (herr : loadSet env deckId ((J : Nat) : Int) = Except.error err)
    (hne : err ≠ Error.ErrNoSetAtIndex)
    (hfuel : J < fuel) :
    loadAllSetsFromApi env deckId fuel = some ((List.range J).map page, some err) := by
  obtain ⟨f, rfl⟩ : ∃ f, fuel = (f + 1) + J := ⟨fuel - J - 1, by omega⟩
  rw [loadAllSetsFromApi_pages env deckId page J (f + 1) hvalid, loadAllSetsFromApiLoop, herr]
  simp [hne]

/-- C4, as the code has it: when the remote source gives a valid set for
each page `0..J-1` and an error other than the end of data at page `J`,
`loadAllSetsFromApi` stops at page `J` and returns that error together with
the `J` sets built so far, in page order (the empty slice only for `J = 0`). -/
theorem loadAllSetsFromApi_transport_error (env : Env) (deckId : GoString) (J : Nat)
    (page : Nat → Set) (err : Error) (fuel : Nat)
    (hvalid : ∀ i, i < J → loadSet env deckId ((i : Nat) : Int) = Except.ok (page i))
    (herr : loadSet env deckId ((J : Nat) : Int) = Except.error err)
    (hne : err ≠ Error.ErrNoSetAtIndex)
    (hfuel : J < fuel) :
    loadAllSetsFromApi env deckId fuel = some ((List.range J).map page, some err)
      ∧ ((List.range J).map page).length = J := by
  exact ⟨loadAllSetsFromApi_stops env deckId J page err fuel hvalid herr hne hfuel, by simp⟩

/-- The theorem of C4 at the remote source whose request fails at page 1. -/
theorem loadAllSetsFromApi_transport_error_witness :
    loadAllSetsFromApi failingEnv deckId 2
      = some ((List.range 1).map (fun _ => sampleSet), some (Error.http "connection refused")) :=
  (loadAllSetsFromApi_transport_error failingEnv deckId 1 (fun _ => sampleSet)
    (Error.http "connection refused") 2
    (fun i hi => by
      have h0 : i = 0 := by omega
      subst h0
      rfl)
    (by rfl) (by decide) (by decide)).1

/-- C4 as stated fails: with a valid page 0 and a failing request at page 1,
the slice returned with the error holds the set of page 0. -/
theorem loadAllSetsFromApi_keeps_partial_sets :
    loadAllSetsFromApi failingEnv deckId 2
        = some ([sampleSet], some (Error.http "connection refused"))
      ∧ [sampleSet] ≠ ([] : List Set) :=
  ⟨by rfl, by decide⟩

/-- C5: when the cache file is absent and some page `J` of the remote source
gives an error other than the end of data, after valid pages `0..J-1`, the
run aborts with that error and the file system is the one it started from:
`saveSetsToFile` has no part in the result. -/
theorem main_transport_error (env : Env) (fs : FileSystem) (J : Nat) (page : Nat → Set)
    (err : Error) (fuel : Nat)
    (habsent : Stat fs cachedSetsFilepath = some Error.notExist)
    (hvalid : ∀ i, i < J → loadSet env deckId ((i : Nat) : Int) = Except.ok (page i))
    (herr : loadSet env deckId ((J : Nat) : Int) = Except.error err)
    (hne : err ≠ Error.ErrNoSetAtIndex)
    (hfuel : J < fuel) :
    main env fs fuel = some (fs, Except.error err) := by
  unfold main
  rw [if_pos habsent, loadAllSetsFromApi_stops env deckId J page err fuel hvalid herr hne hfuel]

/-- The theorem of C5 at the empty file system and the remote source whose
request fails at page 1. -/
theorem main_transport_error_witness :
    main failingEnv emptyFs 2 = some (emptyFs, Except.error (Error.http "connection refused")) :=
  main_transport_error failingEnv emptyFs 1 (fun _ => sampleSet)
    (Error.http "connection refused") 2 (by rfl)
    (fun i hi => by
      have h0 : i = 0 := by omega
      subst h0
      rfl)
    (by rfl) (by decide) (by decide)

/-- When `cache` is a regular file, `os.Stat` fails with an error other than
`notExist`: `main` takes the branch of the present cache file and aborts on
the error of `ioutil.ReadFile`, without any request. -/
theorem main_cache_is_file (env : Env) (fuel : Nat) :
    Stat cacheFileFs cachedSetsFilepath = some Error.notDir
      ∧ main env cacheFileFs fuel = some (cacheFileFs, Except.error Error.notDir) :=
  ⟨by rfl, by rfl⟩

/-- C9: on a response body that was read, `loadSet` returns the end of data
(`ErrNoSetAtIndex`) for every body of at most 5 bytes, whatever the bytes and
the decoder; for every longer body it decodes the bytes from offset 3 on,
which is within the body, and returns the decoded set stamped with the page
index, or a decoding error, which is not `ErrNoSetAtIndex`. -/
theorem loadSet_body (env : Env) (deckId : GoString) (setIndex : Int) (data : List Nat)
    (hbody : env.httpGet (setUrl deckId setIndex) = HttpResult.body data) :
    (data.length ≤ 5 → loadSet env deckId setIndex = Except.error Error.ErrNoSetAtIndex)
      ∧ (5 < data.length →
          3 ≤ data.length
            ∧ (data.drop 3).length = data.length - 3
            ∧ loadSet env deckId setIndex
                = match env.unmarshalSet (data.drop 3) with
                  | Except.error cause => Except.error (Error.json cause)
                  | Except.ok set => Except.ok { set with Index := setIndex })
      ∧ ∀ cause : String, Error.json cause ≠ Error.ErrNoSetAtIndex := by
  refine ⟨?_, ?_, ?_⟩
  · intro h
    simp only [loadSet, hbody, if_pos h]
  · intro h
    refine ⟨by omega, List.length_drop 3 data, ?_⟩
    have h' : ¬ data.length ≤ 5 := by omega
    simp only [loadSet, hbody, if_neg h']
  · intro cause hc
    cases hc

/-- The theorem of C9 at page 1 of the sample remote source, a body of five
bytes, and at page 0, a body that decodes. -/
theorem loadSet_body_witness :
    loadSet sampleEnv deckId 1 = Except.error Error.ErrNoSetAtIndex
      ∧ loadSet sampleEnv deckId 0 = Except.ok sampleSet :=
  ⟨(loadSet_body sampleEnv deckId 1 ([0xEF, 0xBB, 0xBF] ++ ascii "[]") (by rfl)).1 (by decide),
    by rw [((loadSet_body sampleEnv deckId 0 samplePage (by rfl)).2.1 (by decide)).2.2]; rfl⟩

/-! ## The cache: claims C10 and C1 -/

theorem mkdir_error_unchanged (fs : FileSystem) (name : GoString) (err : Error)
    (h : (Mkdir fs name).2 = some err) : Mkdir fs name = (fs, some err) := by
  unfold Mkdir at h ⊢
  split
  · rename_i hl
    rw [hl] at h
    simp only at h
    rw [← h]
  · rename_i hl
    rw [hl] at h
    simp only at h
    split
    · rename_i hr
      rw [if_pos hr] at h
      simp only at h
      rw [← h]
    · rename_i hr
      rw [if_neg hr] at h
      cases h

theorem mkdir_exists (fs : FileSystem) (name : GoString) (h : fs.lookup name ≠ none) :
    Mkdir fs name = (fs, some Error.exist) := by
  unfold Mkdir
  split
  · rfl
  · rename_i hl
    exact absurd hl h

theorem mkdir_ok_absent (fs : FileSystem) (name : GoString) (h : (Mkdir fs name).2 = none) :
    fs.lookup name = none := by
  unfold Mkdir at h
  split at h
  · cases h
  · assumption

/-- C10: `saveSetsToFile` treats a failure to create the `cache` directory
as a hard error with no write: when `os.Mkdir` fails, and so whenever
something is at `cache` already, it returns that error and leaves the file
system as it was; it changes the file system only when `cache` was absent
and has been created by this call. -/
theorem saveSetsToFile_mkdir_error (fs : FileSystem) (sets : List Set) (filepath : GoString) :
    (∀ err, (Mkdir fs (ascii "cache")).2 = some err →
        saveSetsToFile fs sets filepath = (fs, some err))
      ∧ (fs.lookup (ascii "cache") ≠ none →
          saveSetsToFile fs sets filepath = (fs, some Error.exist))
      ∧ ((saveSetsToFile fs sets filepath).1 ≠ fs →
          fs.lookup (ascii "cache") = none
            ∧ (Mkdir fs (ascii "cache")).2 = none
            ∧ (Mkdir fs (ascii "cache")).1.lookup (ascii "cache") = some Node.dir) := by
  refine ⟨?_, ?_, ?_⟩
  · intro err h
    simp only [saveSetsToFile, mkdir_error_unchanged fs _ err h]
  · intro h
    simp only [saveSetsToFile, mkdir_exists fs _ h]
  · intro h
    cases hm : (Mkdir fs (ascii "cache")).2 with
    | some err =>
      exfalso
      apply h
      simp only [saveSetsToFile, mkdir_error_unchanged fs _ err hm]
    | none =>
      have habs := mkdir_ok_absent fs _ hm
      refine ⟨habs, rfl, ?_⟩
      have hm2 := hm
      unfold Mkdir at hm2 ⊢
      rw [habs] at hm2 ⊢
      simp only at hm2 ⊢
      by_cases hr : fs.readOnly = true
      · rw [if_pos hr] at hm2
        cases hm2
      · rw [if_neg hr]
        simp [FileSystem.lookup]

/-- The theorem of C10 at the file system whose `cache` directory exists. -/
theorem saveSetsToFile_mkdir_error_witness :
    saveSetsToFile cacheDirFs [sampleSet] cachedSetsFilepath = (cacheDirFs, some Error.exist)
      ∧ emptyFs.lookup (ascii "cache") = none :=
  ⟨(saveSetsToFile_mkdir_error cacheDirFs [sampleSet] cachedSetsFilepath).2.1 (by decide),
    ((saveSetsToFile_mkdir_error emptyFs [sampleSet] cachedSetsFilepath).2.2 (by decide)).1⟩

/-- The file system after a first run of `main` against `sampleEnv`. -/
theorem main_first_run_fs :
    (saveSetsToFile emptyFs [sampleSet] cachedSetsFilepath).1
      = { entries := [(cachedSetsFilepath, Node.file (Marshal [sampleSet])),
                      (ascii "cache", Node.dir)],
          readOnly := false } := by
  rfl

/-- C1 fails on the code: with no cache file and a remote source whose one
set holds the word `Je`, acquisition returns that set and the save succeeds,
yet the search loop of this first run goes over the empty collection and
prints nothing, whereas the run that follows, from the cache file just
written, prints the match. -/
theorem main_first_run_searches_nothing :
    loadAllSetsFromApi sampleEnv deckId 2 = some ([sampleSet], none)
      ∧ main sampleEnv emptyFs 2
          = some ((saveSetsToFile emptyFs [sampleSet] cachedSetsFilepath).1, Except.ok [])
      ∧ (saveSetsToFile emptyFs [sampleSet] cachedSetsFilepath).2 = none
      ∧ main sampleEnv (saveSetsToFile emptyFs [sampleSet] cachedSetsFilepath).1 2
          = some ((saveSetsToFile emptyFs [sampleSet] cachedSetsFilepath).1,
              Except.ok [[{ SetIndex := 1, WordIndex := 1,
                            Word := ascii "Je", Translation := ascii "I" }]])
      ∧ searchLoop sampleEnv.mapLower wordToSearch [sampleSet]
          = [[{ SetIndex := 1, WordIndex := 1, Word := ascii "Je", Translation := ascii "I" }]] :=
  ⟨by rfl, by rfl, by rfl, by rfl, by rfl⟩

/-- On every first run that succeeds the search loop prints nothing. -/
theorem main_first_run_output (env : Env) (fs fs1 : FileSystem) (fuel : Nat)
    (out : List (List Match))
    (habsent : Stat fs cachedSetsFilepath = some Error.notExist)
    (hrun : main env fs fuel = some (fs1, Except.ok out)) : out = [] := by
  unfold main at hrun
  rw [if_pos habsent] at hrun
  split at hrun
  · cases hrun
  · cases hrun
  · split at hrun
    · cases hrun
    · simp only [Option.some.injEq, Prod.mk.injEq, Except.ok.injEq] at hrun
      rw [← hrun.2]
      rfl

/-! ## UTF-8 -/

/-- The shapes of a valid encoding at the start of a string. -/
theorem decodeRune_cases (b0 : Nat) (rest : List Nat) (r size : Nat)
    (h : decodeRune (b0 :: rest) = (r, size)) (hv : ¬ (r = RuneError ∧ size = 1)) :
    (b0 < 0x80 ∧ r = b0 ∧ size = 1)
      ∨ (∃ b1 t, rest = b1 :: t ∧ 0xC2 ≤ b0 ∧ b0 < 0xE0 ∧ 0x80 ≤ b1 ∧ b1 ≤ 0xBF
          ∧ r = (b0 - 0xC0) * 64 + (b1 - 0x80) ∧ size = 2)
      ∨ (∃ b1 b2 t, rest = b1 :: b2 :: t ∧ 0xE0 ≤ b0 ∧ b0 < 0xF0
          ∧ acceptLo b0 ≤ b1 ∧ b1 ≤ acceptHi b0 ∧ 0x80 ≤ b2 ∧ b2 ≤ 0xBF
          ∧ r = (b0 - 0xE0) * 4096 + (b1 - 0x80) * 64 + (b2 - 0x80) ∧ size = 3)
      ∨ (∃ b1 b2 b3 t, rest = b1 :: b2 :: b3 :: t ∧ 0xF0 ≤ b0 ∧ b0 < 0xF5
          ∧ acceptLo b0 ≤ b1 ∧ b1 ≤ acceptHi b0 ∧ 0x80 ≤ b2 ∧ b2 ≤ 0xBF ∧ 0x80 ≤ b3 ∧ b3 ≤ 0xBF
          ∧ r = (b0 - 0xF0) * 262144 + (b1 - 0x80) * 4096 + (b2 - 0x80) * 64 + (b3 - 0x80)
          ∧ size = 4) := by
  have herr : ∀ {P : Prop}, (RuneError, 1) = (r, size) → P := by
    intro P he
    simp only [Prod.mk.injEq] at he
    exact absurd ⟨he.1.symm, he.2.symm⟩ hv
  unfold decodeRune at h
  simp only at h
  by_cases h1 : b0 < 0x80
  · rw [if_pos h1] at h
    simp only [Prod.mk.injEq] at h
    exact Or.inl ⟨h1, h.1.symm, h.2.symm⟩
  by_cases h2 : b0 < 0xC2
  · rw [if_neg h1, if_pos h2] at h
    exact herr h
  by_cases h3 : b0 < 0xE0
  · rw [if_neg h1, if_neg h2, if_pos h3] at h
    right; left
    rcases rest with _ | ⟨b1, t⟩
    · exact herr h
    · simp only at h
      by_cases hc : 0x80 ≤ b1 ∧ b1 ≤ 0xBF
      · rw [if_pos hc] at h
        simp only [Prod.mk.injEq] at h
        exact ⟨b1, t, rfl, by omega, h3, hc.1, hc.2, h.1.symm, h.2.symm⟩
      · rw [if_neg hc] at h
        exact herr h
  by_cases h4 : b0 < 0xF0
  · rw [if_neg h1, if_neg h2, if_neg h3, if_pos h4] at h
    right; right; left
    rcases rest with _ | ⟨b1, _ | ⟨b2, t⟩⟩
    · exact herr h
    · exact herr h
    · simp only at h
      by_cases hc : acceptLo b0 ≤ b1 ∧ b1 ≤ acceptHi b0 ∧ 0x80 ≤ b2 ∧ b2 ≤ 0xBF
      · rw [if_pos hc] at h
        simp only [Prod.mk.injEq] at h
        exact ⟨b1, b2, t, rfl, by omega, h4, hc.1, hc.2.1, hc.2.2.1, hc.2.2.2, h.1.symm, h.2.symm⟩
      · rw [if_neg hc] at h
        exact herr h
  by_cases h5 : b0 < 0xF5
  · rw [if_neg h1, if_neg h2, if_neg h3, if_neg h4, if_pos h5] at h
    right; right; right
    rcases rest with _ | ⟨b1, _ | ⟨b2, _ | ⟨b3, t⟩⟩⟩
    · exact herr h
    · exact herr h
    · exact herr h
    · simp only at h
      by_cases hc : acceptLo b0 ≤ b1 ∧ b1 ≤ acceptHi b0 ∧ 0x80 ≤ b2 ∧ b2 ≤ 0xBF
          ∧ 0x80 ≤ b3 ∧ b3 ≤ 0xBF
      · rw [if_pos hc] at h
        simp only [Prod.mk.injEq] at h
        exact ⟨b1, b2, b3, t, rfl, by omega, h5, hc.1, hc.2.1, hc.2.2.1, hc.2.2.2.1,
          hc.2.2.2.2.1, hc.2.2.2.2.2, h.1.symm, h.2.symm⟩
      · rw [if_neg hc] at h
        exact herr h
  · rw [if_neg h1, if_neg h2, if_neg h3, if_neg h4, if_neg h5] at h
    exact herr h

/-- Encoding the rune of a valid encoding gives its bytes back. -/
theorem encodeRune_decodeRune (b0 : Nat) (rest : List Nat) (r size : Nat)
    (h : decodeRune (b0 :: rest) = (r, size)) (hv : ¬ (r = RuneError ∧ size = 1)) :
    encodeRune r = (b0 :: rest).take size ∧ size ≤ (b0 :: rest).length ∧ 1 ≤ size := by
  rcases decodeRune_cases b0 rest r size h hv with
    ⟨h1, hr, hs⟩ | ⟨b1, t, rfl, h1, h2, h3, h4, hr, hs⟩ |
    ⟨b1, b2, t, rfl, h1, h2, h3, h4, h5, h6, hr, hs⟩ |
    ⟨b1, b2, b3, t, rfl, h1, h2, h3, h4, h5, h6, h7, h8, hr, hs⟩
  · subst hr hs
    refine ⟨?_, by simp, le_refl _⟩
    have : r ≤ 0x7F := by omega
    simp [encodeRune, this]
  · subst hs
    refine ⟨?_, by simp, by omega⟩
    have e1 : ¬ r ≤ 0x7F := by omega
    have e2 : r ≤ 0x7FF := by omega
    have e3 : 0xC0 + r / 64 = b0 := by omega
    have e4 : 0x80 + r % 64 = b1 := by omega
    simp [encodeRune, e1, e2, e3, e4]
  · subst hs
    refine ⟨?_, by simp, by omega⟩
    have hb : 0x80 ≤ b1 ∧ b1 ≤ 0xBF ∧ (b0 = 0xE0 → 0xA0 ≤ b1) ∧ (b0 = 0xED → b1 ≤ 0x9F) := by
      simp only [acceptLo, acceptHi] at h3 h4
      split_ifs at h3 h4 <;> omega
    clear h3 h4
    obtain ⟨hb1, hb2, hb3, hb4⟩ := hb
    have e5 : 0xE0 + r / 4096 = b0 := by omega
    have e6 : 0x80 + r / 64 % 64 = b1 := by omega
    have e7 : 0x80 + r % 64 = b2 := by omega
    have e2 : ¬ r ≤ 0x7FF := by
      by_cases hc : b0 = 0xE0
      · have := hb3 hc
        omega
      · omega
    have e1 : ¬ r ≤ 0x7F := by omega
    have e3 : ¬ (r > 0x10FFFF ∨ (0xD800 ≤ r ∧ r ≤ 0xDFFF)) := by
      by_cases hc : b0 = 0xED
      · have := hb4 hc
        omega
      · omega
    have e4 : r ≤ 0xFFFF := by omega
    simp [encodeRune, e1, e2, e3, e4, e5, e6, e7]
  · subst hs
    refine ⟨?_, by simp, by omega⟩
    have hb : 0x80 ≤ b1 ∧ b1 ≤ 0xBF ∧ (b0 = 0xF0 → 0x90 ≤ b1) ∧ (b0 = 0xF4 → b1 ≤ 0x8F) := by
      simp only [acceptLo, acceptHi] at h3 h4
      split_ifs at h3 h4 <;> omega
    clear h3 h4
    obtain ⟨hb1, hb2, hb3, hb4⟩ := hb
    have e5 : 0xF0 + r / 262144 = b0 := by omega
    have e6 : 0x80 + r / 4096 % 64 = b1 := by omega
    have e7 : 0x80 + r / 64 % 64 = b2 := by omega
    have e8 : 0x80 + r % 64 = b3 := by omega
    have e4 : ¬ r ≤ 0xFFFF := by
      by_cases hc : b0 = 0xF0
      · have := hb3 hc
        omega
      · omega
    have e1 : ¬ r ≤ 0x7F := by omega
    have e2 : ¬ r ≤ 0x7FF := by omega
    have e3 : ¬ (r > 0x10FFFF ∨ (0xD800 ≤ r ∧ r ≤ 0xDFFF)) := by
      by_cases hc : b0 = 0xF4
      · have := hb4 hc
        omega
      · omega
    simp [encodeRune, e1, e2, e3, e4, e5, e6, e7, e8]

/-- The rune of a valid encoding depends on the bytes of the encoding only. -/
theorem decodeRune_take_append (b0 : Nat) (rest : List Nat) (r size : Nat)
    (h : decodeRune (b0 :: rest) = (r, size)) (hv : ¬ (r = RuneError ∧ size = 1))
    (q : List Nat) : decodeRune ((b0 :: rest).take size ++ q) = (r, size) := by
  rcases decodeRune_cases b0 rest r size h hv with
    ⟨h1, hr, hs⟩ | ⟨b1, t, rfl, h1, h2, h3, h4, hr, hs⟩ |
    ⟨b1, b2, t, rfl, h1, h2, h3, h4, h5, h6, hr, hs⟩ |
    ⟨b1, b2, b3, t, rfl, h1, h2, h3, h4, h5, h6, h7, h8, hr, hs⟩
  · subst hs
    rw [← h]
    simp [decodeRune, h1]
  · subst hs
    rw [← h]
    have a1 : ¬ b0 < 0x80 := by omega
    have a2 : ¬ b0 < 0xC2 := by omega
    simp [decodeRune, a1, a2, h2, h3, h4]
  · subst hs
    rw [← h]
    have a1 : ¬ b0 < 0x80 := by omega
    have a2 : ¬ b0 < 0xC2 := by omega
    have a3 : ¬ b0 < 0xE0 := by omega
    simp [decodeRune, a1, a2, a3, h2, h3, h4, h5, h6]
  · subst hs
    rw [← h]
    have a1 : ¬ b0 < 0x80 := by omega
    have a2 : ¬ b0 < 0xC2 := by omega
    have a3 : ¬ b0 < 0xE0 := by omega
    have a4 : ¬ b0 < 0xF0 := by omega
    simp [decodeRune, a1, a2, a3, a4, h2, h3, h4, h5, h6, h7, h8]

/-! ## Strings: reading back what was written -/

theorem unquoteLoop_quote (fuel : Nat) (rest : List Nat) (out : GoString) :
    unquoteLoop (fuel + 1) (34 :: rest) out = some (out, rest) := by
  simp [unquoteLoop]

theorem unquoteLoop_safe (fuel b : Nat) (rest : List Nat) (out : GoString)
    (hb : b < 0x80) (hs : htmlSafe b = true) :
    unquoteLoop (fuel + 1) (b :: rest) out = unquoteLoop fuel rest (out ++ [b]) := by
  simp only [htmlSafe, decide_eq_true_eq] at hs
  obtain ⟨h1, h2, h3, _⟩ := hs
  have h4 : ¬ b < 0x20 := by omega
  rw [unquoteLoop.eq_def]
  simp only
  rw [if_neg h2, if_neg h3, if_neg h4, if_pos hb]

theorem unquoteLoop_escape (fuel b : Nat) (rest : List Nat) (out : GoString)
    (hb : b < 0x80) (hs : htmlSafe b = false) :
    unquoteLoop (fuel + 1) (escapeByte b ++ rest) out = unquoteLoop fuel rest (out ++ [b]) := by
  interval_cases b <;> first | (simp [htmlSafe] at hs; done) | rfl

theorem unquoteLoop_separator (fuel c : Nat) (q : List Nat) (out : GoString)
    (hc : c = 0x2028 ∨ c = 0x2029) :
    unquoteLoop (fuel + 1) ([92, 117, 50, 48, 50, hexDigit (c % 16)] ++ q) out
      = unquoteLoop fuel q (out ++ encodeRune c) := by
  rcases hc with rfl | rfl <;> rfl

theorem unquoteLoop_encoding (fuel b : Nat) (t : List Nat) (c size : Nat) (q : List Nat)
    (out : GoString) (hb : ¬ b < 0x80) (hd : decodeRune (b :: t) = (c, size))
    (hv : ¬ (c = RuneError ∧ size = 1)) :
    unquoteLoop (fuel + 1) ((b :: t).take size ++ q) out
      = unquoteLoop fuel q (out ++ (b :: t).take size) := by
  obtain ⟨henc, hlen, hpos⟩ := encodeRune_decodeRune b t c size hd hv
  have hdq := decodeRune_take_append b t c size hd hv q
  obtain ⟨k, rfl⟩ : ∃ k, size = k + 1 := ⟨size - 1, by omega⟩
  have htake : (b :: t).take (k + 1) = b :: t.take k := rfl
  rw [htake] at hdq henc ⊢
  have h1 : ¬ b = 34 := by omega
  have h2 : ¬ b = 92 := by omega
  have h3 : ¬ b < 0x20 := by omega
  rw [List.cons_append, unquoteLoop.eq_def]
  simp only
  rw [if_neg h1, if_neg h2, if_neg h3, if_neg hb]
  rw [← List.cons_append, hdq]
  simp only
  rw [henc]
  congr 1
  have hl : (b :: List.take k t).length = k + 1 := by
    simp only [List.length_cons, List.length_take]
    simp only [List.length_cons] at hlen
    omega
  rw [List.drop_append_eq_append_drop, hl]
  simp [List.drop_eq_nil_of_le (le_of_eq hl)]

theorem appendStringLoop_valid (n : Nat) : ∀ (s : GoString), s.length ≤ n → validLoop n s = true →
    ∀ (fd : Nat) (rest : List Nat) (out : GoString), (appendStringLoop n s).length + 1 ≤ fd →
      unquoteLoop fd (appendStringLoop n s ++ 34 :: rest) out = some (out ++ s, rest) := by
  induction n with
  | zero =>
    intro s hs _ fd rest out hfd
    have : s = [] := List.eq_nil_of_length_eq_zero (by omega)
    subst this
    obtain ⟨f, rfl⟩ : ∃ f, fd = f + 1 := ⟨fd - 1, by omega⟩
    simp [appendStringLoop, unquoteLoop_quote]
  | succ n ih =>
    intro s hs hvalid fd rest out hfd
    cases s with
    | nil =>
      obtain ⟨f, rfl⟩ : ∃ f, fd = f + 1 := ⟨fd - 1, by omega⟩
      simp [appendStringLoop, unquoteLoop_quote]
    | cons b t =>
      simp only [List.length_cons] at hs
      rcases hd : decodeRune (b :: t) with ⟨c, size⟩
      rw [validLoop, hd] at hvalid
      simp only at hvalid
      by_cases hv : c = RuneError ∧ size = 1
      · rw [if_pos hv] at hvalid
        cases hvalid
      rw [if_neg hv] at hvalid
      obtain ⟨henc, hlen, hpos⟩ := encodeRune_decodeRune b t c size hd hv
      have hsplit : (b :: t).take size ++ (b :: t).drop size = b :: t := List.take_append_drop _ _
      have hdroplen : ((b :: t).drop size).length ≤ n := by
        simp only [List.length_drop, List.length_cons]
        omega
      by_cases hb : b < 0x80
      · have h1 : decodeRune (b :: t) = (b, 1) := by
          unfold decodeRune
          simp only
          rw [if_pos hb]
        rw [h1] at hd
        simp only [Prod.mk.injEq] at hd
        obtain ⟨rfl, rfl⟩ := hd
        simp only [List.drop_succ_cons, List.drop_zero] at hvalid hdroplen
        rw [appendStringLoop, if_pos hb] at hfd ⊢
        by_cases hsafe : htmlSafe b = true
        · rw [if_pos hsafe] at hfd ⊢
          simp only [List.length_cons] at hfd
          obtain ⟨f, rfl⟩ : ∃ f, fd = f + 1 := ⟨fd - 1, by omega⟩
          rw [List.cons_append, unquoteLoop_safe f b _ out hb hsafe,
            ih t (by omega) hvalid f rest (out ++ [b]) (by omega)]
          simp
        · rw [if_neg hsafe] at hfd ⊢
          have hsafe' : htmlSafe b = false := by simpa using hsafe
          have hel : 1 ≤ (escapeByte b).length := by
            unfold escapeByte
            split_ifs <;> simp
          simp only [List.length_append] at hfd
          obtain ⟨f, rfl⟩ : ∃ f, fd = f + 1 := ⟨fd - 1, by omega⟩
          rw [List.append_assoc, unquoteLoop_escape f b _ out hb hsafe',
            ih t (by omega) hvalid f rest (out ++ [b]) (by omega)]
          simp
      · rw [appendStringLoop, if_neg hb, hd] at hfd ⊢
        simp only at hfd ⊢
        rw [if_neg hv] at hfd ⊢
        by_cases hsep : c = 0x2028 ∨ c = 0x2029
        · rw [if_pos hsep] at hfd ⊢
          simp only [List.length_append, List.length_cons, List.length_nil] at hfd
          obtain ⟨f, rfl⟩ : ∃ f, fd = f + 1 := ⟨fd - 1, by omega⟩
          rw [List.append_assoc, unquoteLoop_separator f c _ out hsep,
            ih _ hdroplen hvalid f rest _ (by omega), henc, List.append_assoc, hsplit]
        · rw [if_neg hsep] at hfd ⊢
          have htl : ((b :: t).take size).length = size := by
            rw [List.length_take]
            omega
          rw [List.length_append, htl] at hfd
          obtain ⟨f, rfl⟩ : ∃ f, fd = f + 1 := ⟨fd - 1, by omega⟩
          rw [List.append_assoc, unquoteLoop_encoding f b t c size _ out hb hd hv,
            ih _ hdroplen hvalid f rest _ (by omega), List.append_assoc, hsplit]

/-- A valid string is read back from its serialised form. -/
theorem unquote_appendString (s : GoString) (hs : Valid s = true) (rest : List Nat) :
    unquote (appendString s ++ rest) = some (s, rest) := by
  have h := appendStringLoop_valid s.length s (le_refl _) hs
    ((appendStringLoop s.length s ++ 34 :: rest).length) rest []
    (by simp only [List.length_append, List.length_cons]; omega)
  simp only [List.nil_append] at h
  simp only [appendString, List.cons_append, List.append_assoc, List.singleton_append, unquote]
  exact h

/-! ## Integers: reading back what was written -/

theorem parseDigits_append (ds : List Nat) (hds : ∀ x ∈ ds, 48 ≤ x ∧ x ≤ 57) (tail : List Nat)
    (a : Nat) :
    parseDigits (ds ++ 125 :: tail) a
      = (ds.foldl (fun v d => v * 10 + (d - 48)) a, 125 :: tail) := by
  induction ds generalizing a with
  | nil => simp [parseDigits]
  | cons d ds ih =>
    have hd := hds d (List.mem_cons_self _ _)
    rw [List.cons_append, parseDigits, if_pos hd, ih (fun x hx => hds x (List.mem_cons_of_mem _ hx))]
    rfl

theorem appendDigits_digits (fuel : Nat) : ∀ n, n ≤ fuel →
    ∃ ds : List Nat, (∀ acc, appendDigits fuel n acc = ds ++ acc) ∧ ds ≠ []
      ∧ (∀ x ∈ ds, 48 ≤ x ∧ x ≤ 57)
      ∧ ds.foldl (fun v d => v * 10 + (d - 48)) 0 = n
      ∧ (ds.head? = some 48 → ds = [48]) := by
  induction fuel with
  | zero =>
    intro n hn
    have h0 : n = 0 := by omega
    subst h0
    exact ⟨[48], fun acc => rfl, by simp, by simp, rfl, fun _ => rfl⟩
  | succ fuel ih =>
    intro n hn
    by_cases h10 : n < 10
    · refine ⟨[48 + n], fun acc => ?_, by simp, ?_, ?_, ?_⟩
      · rw [appendDigits, if_pos h10]
        rfl
      · intro x hx
        simp only [List.mem_singleton] at hx
        omega
      · simp
      · intro hh
        simp only [List.head?_cons, Option.some.injEq] at hh
        rw [hh]
    · obtain ⟨ds, happ, hne, hdig, hval, hhead⟩ := ih (n / 10) (by omega)
      refine ⟨ds ++ [48 + n % 10], fun acc => ?_, by simp, ?_, ?_, ?_⟩
      · rw [appendDigits, if_neg h10, happ]
        simp
      · intro x hx
        rcases List.mem_append.1 hx with hx | hx
        · exact hdig x hx
        · simp only [List.mem_singleton] at hx
          omega
      · rw [List.foldl_append, hval]
        simp only [List.foldl_cons, List.foldl_nil]
        omega
      · intro hh
        exfalso
        cases ds with
        | nil => exact hne rfl
        | cons d ds =>
          simp only [List.cons_append, List.head?_cons] at hh
          have h48 := hhead hh
          rw [h48] at hval
          simp only [List.foldl_cons, List.foldl_nil] at hval
          omega

theorem parseNat_appendDigits (n : Nat) (tail : List Nat) :
    parseNat (appendDigits n n [] ++ 125 :: tail) = some (n, 125 :: tail) := by
  obtain ⟨ds, happ, hne, hdig, hval, hhead⟩ := appendDigits_digits n n (le_refl _)
  rw [happ, List.append_nil]
  cases ds with
  | nil => exact absurd rfl hne
  | cons d ds =>
    have hd := hdig d (List.mem_cons_self _ _)
    by_cases h48 : d = 48
    · subst h48
      have hds := hhead rfl
      simp only [List.cons.injEq, true_and] at hds
      subst hds
      simp only [List.foldl_cons, List.foldl_nil] at hval
      subst hval
      simp [parseNat]
    · have hd' : 49 ≤ d ∧ d ≤ 57 := by omega
      rw [List.cons_append, parseNat.eq_def]
      simp only
      rw [if_neg h48, if_pos hd',
        parseDigits_append ds (fun x hx => hdig x (List.mem_cons_of_mem _ hx))]
      simp only [List.foldl_cons] at hval
      simp only [Nat.zero_mul, Nat.zero_add] at hval
      rw [hval]
      simp

/-- An integer is read back from its decimal form when a closing brace follows. -/
theorem parseInt_appendInt (i : Int) (tail : List Nat) :
    parseInt (appendInt i ++ 125 :: tail) = some (i, 125 :: tail) := by
  by_cases hneg : i < 0
  · rw [appendInt, if_pos hneg, List.cons_append, parseInt, parseNat_appendDigits]
    simp only [Option.some.injEq, Prod.mk.injEq, and_true]
    omega
  · rw [appendInt, if_neg hneg]
    obtain ⟨ds, happ, hne, hdig, _, _⟩ := appendDigits_digits i.natAbs i.natAbs (le_refl _)
    have hp := parseNat_appendDigits i.natAbs tail
    rw [happ, List.append_nil] at hp ⊢
    cases ds with
    | nil => exact absurd rfl hne
    | cons d ds =>
      have hd := hdig d (List.mem_cons_self _ _)
      have h45 : d ≠ 45 := by omega
      rw [List.cons_append] at hp ⊢
      unfold parseInt
      split
      · rename_i heq
        simp only [List.cons.injEq] at heq
        exact absurd heq.1 h45
      · rw [hp]
        simp only [Option.some.injEq, Prod.mk.injEq, and_true]
        omega

/-! ## Slices, cards and sets: reading back what was written -/

theorem expect_append (lit rest : List Nat) : expect lit (lit ++ rest) = some rest := by
  have h : lit.isPrefixOf (lit ++ rest) = true :=
    List.isPrefixOf_iff_prefix.2 (List.prefix_append lit rest)
  rw [expect, if_pos h, List.drop_left]

theorem appendElems_cons {α : Type} (enc : α → List Nat) (x : α) (xs : List α) :
    appendElems enc (x :: xs) = enc x ++ (match xs with
      | [] => []
      | y :: rest => 44 :: appendElems enc (y :: rest)) := by
  cases xs with
  | nil => simp [appendElems]
  | cons y rest => simp [appendElems]

theorem length_appendElems {α : Type} (enc : α → List Nat) (xs : List α)
    (hbrace : ∀ x ∈ xs, ∃ t, enc x = 123 :: t) :
    xs.length ≤ (appendElems enc xs).length := by
  induction xs with
  | nil => simp
  | cons x xs ih =>
    obtain ⟨t, ht⟩ := hbrace x (List.mem_cons_self _ _)
    have ih' := ih (fun y hy => hbrace y (List.mem_cons_of_mem _ hy))
    rw [appendElems_cons, ht]
    cases xs with
    | nil => simp
    | cons y rest =>
      simp only [List.length_append, List.length_cons] at ih' ⊢
      omega

theorem parseElems_appendElems {α : Type} (enc : α → List Nat)
    (elem : List Nat → Option (α × List Nat)) (xs : List α) :
    ∀ (x : α), (∀ y ∈ x :: xs, ∀ rest, elem (enc y ++ rest) = some (y, rest)) →
      ∀ (fuel : Nat) (acc : List α) (rest : List Nat), (x :: xs).length ≤ fuel →
        parseElems elem fuel (appendElems enc (x :: xs) ++ 93 :: rest) acc
          = some (acc ++ x :: xs, rest) := by
  induction xs with
  | nil =>
    intro x helem fuel acc rest hfuel
    obtain ⟨f, rfl⟩ : ∃ f, fuel = f + 1 := ⟨fuel - 1, by simp at hfuel; omega⟩
    rw [appendElems, parseElems, helem x (List.mem_cons_self _ _)]
  | cons y ys ih =>
    intro x helem fuel acc rest hfuel
    obtain ⟨f, rfl⟩ : ∃ f, fuel = f + 1 := ⟨fuel - 1, by simp at hfuel; omega⟩
    rw [appendElems, List.append_assoc, parseElems, helem x (List.mem_cons_self _ _)]
    simp only [List.cons_append]
    rw [ih y (fun z hz => helem z (List.mem_cons_of_mem _ hz)) f (acc ++ [x]) rest
      (by simp only [List.length_cons] at hfuel ⊢; omega)]
    simp

theorem parseSlice_appendSlice {α : Type} (enc : α → List Nat)
    (elem : List Nat → Option (α × List Nat)) (xs : List α)
    (helem : ∀ y ∈ xs, ∀ rest, elem (enc y ++ rest) = some (y, rest))
    (hbrace : ∀ y ∈ xs, ∃ t, enc y = 123 :: t) (rest : List Nat) :
    parseSlice elem (appendSlice enc xs ++ rest) = some (xs, rest) := by
  cases xs with
  | nil => rfl
  | cons x xs =>
    have hlen := length_appendElems enc (x :: xs) hbrace
    have hp := parseElems_appendElems enc elem xs x helem
      ((appendElems enc (x :: xs) ++ 93 :: rest).length) [] rest
      (by rw [List.length_append]; omega)
    obtain ⟨t, ht⟩ := hbrace x (List.mem_cons_self _ _)
    have hstart : ∃ t', appendElems enc (x :: xs) = 123 :: t' := by
      rw [appendElems_cons, ht]
      exact ⟨_, rfl⟩
    obtain ⟨t', ht'⟩ := hstart
    rw [appendSlice, List.cons_append, List.append_assoc, List.singleton_append]
    rw [ht'] at hp ⊢
    simp only [List.cons_append, List.nil_append] at hp ⊢
    rw [parseSlice.eq_def]
    simp only
    exact hp

theorem parseCard_marshalCard (c : Card) (hv : c.validText = true) (rest : List Nat) :
    parseCard (marshalCard c ++ rest) = some (c, rest) := by
  simp only [Card.validText, Bool.and_eq_true] at hv
  simp only [marshalCard, List.append_assoc, parseCard, expect_append,
    unquote_appendString _ hv.1, unquote_appendString _ hv.2]

theorem marshalCard_brace (c : Card) : ∃ t, marshalCard c = 123 :: t := ⟨_, rfl⟩

theorem marshalSet_brace (s : Set) : ∃ t, marshalSet s = 123 :: t := ⟨_, rfl⟩

theorem parseSet_marshalSet (s : Set) (hv : s.validText = true) (rest : List Nat) :
    parseSet (marshalSet s ++ rest) = some (s, rest) := by
  simp only [Set.validText, Bool.and_eq_true, List.all_eq_true] at hv
  have hcards : ∀ rest', parseSlice parseCard (appendSlice marshalCard s.Cards ++ rest')
      = some (s.Cards, rest') := fun rest' =>
    parseSlice_appendSlice marshalCard parseCard s.Cards
      (fun c hc r => parseCard_marshalCard c (hv.2 c hc) r) (fun c _ => marshalCard_brace c) rest'
  have hbrace : ascii "\x7d" ++ rest = 125 :: rest := rfl
  have hclose : expect (ascii "\x7d") (125 :: rest) = some rest := expect_append [125] rest
  simp only [marshalSet, List.append_assoc, parseSet, expect_append,
    unquote_appendString _ hv.1, hcards, hbrace, parseInt_appendInt, hclose]

/-- A collection of valid text is read back from its serialised form. -/
theorem unmarshal_marshal (sets : List Set) (hv : validCollection sets = true) :
    Unmarshal (Marshal sets) = Except.ok sets := by
  simp only [validCollection, List.all_eq_true] at hv
  have h := parseSlice_appendSlice marshalSet parseSet sets
    (fun s hs r => parseSet_marshalSet s (hv s hs) r) (fun s _ => marshalSet_brace s) []
  rw [List.append_nil] at h
  rw [Unmarshal, Marshal, h]

theorem lookup_cons_filter (fs : FileSystem) (filename : GoString) (node : Node)
    (path : GoString) (hne : path ≠ filename) :
    FileSystem.lookup
        { fs with entries :=
            (filename, node) :: fs.entries.filter (fun e => decide (e.1 ≠ filename)) } path
      = fs.lookup path := by
  have hfind : ∀ l : List (GoString × Node),
      (l.filter (fun e => decide (e.1 ≠ filename))).find? (fun e => decide (e.1 = path))
        = l.find? (fun e => decide (e.1 = path)) := by
    intro l
    induction l with
    | nil => rfl
    | cons e l ih =>
      by_cases he : e.1 = filename
      · have hp : ¬ decide (e.1 = path) = true := by
          simp only [decide_eq_true_eq]
          exact fun h => hne (h.symm.trans he)
        have hf : ¬ decide (e.1 ≠ filename) = true := by
          simp only [decide_eq_true_eq]
          exact fun h => h he
        rw [@List.filter_cons_of_neg _ (fun e => decide (e.1 ≠ filename)) e l hf,
          @List.find?_cons_of_neg _ (fun e => decide (e.1 = path)) e l hp, ih]
      · have hf : decide (e.1 ≠ filename) = true := by
          simp only [decide_eq_true_eq]
          exact he
        rw [@List.filter_cons_of_pos _ (fun e => decide (e.1 ≠ filename)) e l hf]
        by_cases hp : decide (e.1 = path) = true
        · rw [@List.find?_cons_of_pos _ (fun e => decide (e.1 = path)) e _ hp,
            @List.find?_cons_of_pos _ (fun e => decide (e.1 = path)) e _ hp]
        · rw [@List.find?_cons_of_neg _ (fun e => decide (e.1 = path)) e _ hp,
            @List.find?_cons_of_neg _ (fun e => decide (e.1 = path)) e _ hp, ih]
  have hhead : ¬ filename = path := fun h => hne h.symm
  simp only [FileSystem.lookup, List.find?_cons, hhead, decide_False, hfind]

theorem ancestors_ne (path d : GoString) (hd : d ∈ ancestors path) : d ≠ path := by
  simp only [ancestors, List.mem_map, List.mem_filter, List.mem_range] at hd
  obtain ⟨i, ⟨hi, _⟩, rfl⟩ := hd
  intro h
  have hl := congrArg List.length h
  rw [List.length_take] at hl
  omega

theorem walk_congr (fs1 fs2 : FileSystem) (dirs : List GoString)
    (h : ∀ d ∈ dirs, fs2.lookup d = fs1.lookup d) : walk fs2 dirs = walk fs1 dirs := by
  induction dirs with
  | nil => rfl
  | cons d dirs ih =>
    rw [walk, walk, h d (List.mem_cons_self _ _),
      ih (fun x hx => h x (List.mem_cons_of_mem _ hx))]

theorem writeFile_ok (fs fs1 : FileSystem) (filename : GoString) (data : List Nat)
    (h : WriteFile fs filename data = (fs1, none)) :
    walk fs1 (ancestors filename) = none ∧ fs1.lookup filename = some (Node.file data) := by
  unfold WriteFile at h
  by_cases hr : fs.readOnly = true
  · rw [if_pos hr] at h
    cases h
  · rw [if_neg hr] at h
    split at h
    · cases h
    · rename_i hw
      by_cases hdir : fs.lookup filename = some Node.dir
      · rw [if_pos hdir] at h
        cases h
      · rw [if_neg hdir] at h
        simp only [Prod.mk.injEq, and_true] at h
        subst h
        refine ⟨?_, ?_⟩
        · rw [← hw]
          apply walk_congr
          intro d hd
          exact lookup_cons_filter fs filename _ d (ancestors_ne filename d hd)
        · simp [FileSystem.lookup]

theorem readFile_saveSetsToFile (fs : FileSystem) (sets : List Set) (filepath : GoString)
    (h : (saveSetsToFile fs sets filepath).2 = none) :
    ReadFile (saveSetsToFile fs sets filepath).1 filepath = Except.ok (Marshal sets) := by
  unfold saveSetsToFile at h ⊢
  simp only at h ⊢
  split at h
  · cases h
  · rename_i fs1 hm
    split at h
    · cases h
    · rename_i fs2 hw
      obtain ⟨hwalk, hlook⟩ := writeFile_ok _ _ _ _ hw
      rw [ReadFile, hwalk]
      simp only
      rw [hlook]

/-! ## The cache round trip: claim C8 -/

theorem stat_saveSetsToFile (fs : FileSystem) (sets : List Set) (filepath : GoString)
    (h : (saveSetsToFile fs sets filepath).2 = none) :
    Stat (saveSetsToFile fs sets filepath).1 filepath ≠ some Error.notExist := by
  unfold saveSetsToFile at h ⊢
  simp only at h ⊢
  split at h
  · cases h
  · rename_i fs1 hm
    split at h
    · cases h
    · rename_i fs2 hw
      obtain ⟨hwalk, hlook⟩ := writeFile_ok _ _ _ _ hw
      rw [Stat, hwalk]
      simp only
      rw [hlook]
      simp

/-- C8, for collections of valid text: when every string of the collection
is valid UTF-8, decoding the bytes `saveSetsToFile` serialises gives the
collection back, the same sets in the same order with the same name, index
and cards; after a save that succeeds the file holds exactly these bytes, and
a run of `main` that finds them in the cache file searches that collection. -/
theorem cache_round_trip (fs : FileSystem) (sets : List Set) (filepath : GoString)
    (hvalid : validCollection sets = true) :
    Unmarshal (Marshal sets) = Except.ok sets
      ∧ ((saveSetsToFile fs sets filepath).2 = none →
          ReadFile (saveSetsToFile fs sets filepath).1 filepath = Except.ok (Marshal sets))
      ∧ (∀ (env : Env) (fuel : Nat), (saveSetsToFile fs sets cachedSetsFilepath).2 = none →
          main env (saveSetsToFile fs sets cachedSetsFilepath).1 fuel
            = some ((saveSetsToFile fs sets cachedSetsFilepath).1,
                Except.ok (searchLoop env.mapLower wordToSearch sets))) := by
  refine ⟨unmarshal_marshal sets hvalid, readFile_saveSetsToFile fs sets filepath, ?_⟩
  intro env fuel hsave
  unfold main
  rw [if_neg (stat_saveSetsToFile fs sets cachedSetsFilepath hsave),
    readFile_saveSetsToFile fs sets cachedSetsFilepath hsave]
  simp only
  rw [unmarshal_marshal sets hvalid]

/-- The theorem of C8 at the collection of the sample set, saved from the
empty file system. -/
theorem cache_round_trip_witness :
    Unmarshal (Marshal [sampleSet]) = Except.ok [sampleSet]
      ∧ ReadFile (saveSetsToFile emptyFs [sampleSet] cachedSetsFilepath).1 cachedSetsFilepath
          = Except.ok (Marshal [sampleSet]) :=
  ⟨(cache_round_trip emptyFs [sampleSet] cachedSetsFilepath (by decide)).1,
    (cache_round_trip emptyFs [sampleSet] cachedSetsFilepath (by decide)).2.1 (by rfl)⟩

/-- C8 as stated fails: a set whose name is the byte `0xFF` is written with
the name `\ufffd` and read back with the three bytes of U+FFFD as its name. -/
theorem cache_round_trip_invalid_text :
    Marshal [badNameSet] = ascii "[\x7b\"name\":\"\\ufffd\",\"cards\":null,\"index\":0\x7d]"
      ∧ Unmarshal (Marshal [badNameSet])
          = Except.ok [{ Name := [0xEF, 0xBF, 0xBD], Cards := [], Index := 0 }]
      ∧ Unmarshal (Marshal [badNameSet]) ≠ Except.ok [badNameSet] := by
  refine ⟨by rfl, by rfl, ?_⟩
  intro h
  have h2 : Unmarshal (Marshal [badNameSet])
      = Except.ok [{ Name := [0xEF, 0xBF, 0xBD], Cards := [], Index := 0 }] := by rfl
  rw [h2] at h
  simp only [Except.ok.injEq] at h
  exact absurd h (by decide)

end TofuLearn
